import Mathlib

/-!
# Rock–paper–scissors round-robin tournament (`main.c`)

A shallow embedding of `main.c`: `determine_winner`, the orchestrator
`run_tournament`, the student threads `student_thread`, the sort of
`print_results` and `main`, together with the properties of the specification
that are settled on them.

The program is embedded twice.

* *Sequentially*: `run_tournament` and `main` as functions on the state of the
  process.  What the surroundings decide (the reads of the signal-driven
  `stop_flag`, the progress of the registration, the values of `rand_r`) is given
  by an `Env`; the two students woken for a match take their turn between the
  orchestrator's `sem_post`s and `sem_wait`s, by the code of `student_thread`.
* *Interleaved*: the orchestrator and the students as one transition system
  `step`, a step being one statement or one critical section of one thread, under
  every schedule.

Conventions of the embedding:

* C `int` values are modelled by `Int`.  Every integer the program computes on
  the paths considered here is bounded (scores by `2 * (MAX_PLAYERS - 1)`,
  counters by `MAX_PLAYERS * (MAX_PLAYERS - 1) / 2`), so no machine overflow
  can occur and no wrap-around is modelled.
* A C array is a `List`; `a[i]` is `a.getD i 0` and `a[i] = v` is `a.set i v`.
* Loop indices that only range over `0 .. n` are `Nat`.
* A counting semaphore is its value, a `Nat`; `sem_wait` on a semaphore of value 0
  blocks.  `sem_wait` returns only with the semaphore taken: the handler is
  installed with `signal`, under which an interrupted `sem_wait` is restarted.
* Allocations and thread creations succeed; the log file is not modelled (it
  receives the same lines as the standard output).
-/

namespace RPS

/-! ## Definitions -/

/-- The constant `#define MAX_PLAYERS 10`. -/
def MAX_PLAYERS : Nat := 10

/-- The struct `SharedData` of `main.c` (lines 14–26) without the mutex and the condition
variable, which carry no data. -/
structure SharedData where
  current_moves : List Int
  scores : List Int
  game_over : Int
  matches_played : Int
  total_matches : Int
  registered_players : Int
  total_players : Int
  current_player1 : Int
  current_player2 : Int
deriving DecidableEq, Repr

/-- The function `int determine_winner(int choice1, int choice2)` (lines 95–103). -/
def determine_winner (choice1 choice2 : Int) : Int :=
  if choice1 = choice2 then 0
  else if (choice1 = 0 ∧ choice2 = 1) ∨ (choice1 = 1 ∧ choice2 = 2) ∨
      (choice1 = 2 ∧ choice2 = 0) then 1
  else 2

/-- The score update of one match in `run_tournament` (lines 255–262), for the
already computed `result` of the match between `i` and `j`. -/
def update_scores (result : Int) (i j : Nat) (scores : List Int) : List Int :=
  if result = 0 then
    let scores1 := scores.set i (scores.getD i 0 + 1)
    scores1.set j (scores1.getD j 0 + 1)
  else if result = 1 then
    scores.set i (scores.getD i 0 + 2)
  else
    scores.set j (scores.getD j 0 + 2)

/-- The result of the match between `i` and `j` as `run_tournament` computes it
(lines 245–251): the winner for the two recorded moves. -/
def match_result (i j : Nat) (s : SharedData) : Int :=
  let move1 := s.current_moves.getD i 0
  let move2 := s.current_moves.getD j 0
  determine_winner move1 move2

/-- The scoring step of one match in `run_tournament` (lines 245–263): read the
two recorded moves, decide the winner, update the scores. -/
def score_match (i j : Nat) (s : SharedData) : SharedData :=
  let result := match_result i j s
  { s with scores := update_scores result i j s.scores }

/-- The lines the program prints about the tournament, as structured events. -/
inductive Event where
  /-- Line 190: the tournament is interrupted during registration. -/
  | registration_interrupted
  /-- Line 199. -/
  | all_registered
  /-- Line 206, with `total_matches`. -/
  | tournament_start (total : Int)
  /-- Line 212: the tournament is interrupted before a match. -/
  | tournament_interrupted
  /-- Line 223: match `played` of `total` between students `i` and `j`. -/
  | match_start (played total : Int) (i j : Nat)
  /-- Line 155: a student made a move. -/
  | move_made (id : Nat) (move : Int)
  /-- Line 268. -/
  | draw
  /-- Lines 270 and 272. -/
  | winner (id : Nat)
  /-- Line 174: a student leaves its loop. -/
  | student_done (id : Nat)
  /-- Line 340: a line of the final standings. -/
  | place (rank : Nat) (id score : Int)
deriving DecidableEq, Repr

/-- What the surroundings contribute to one run of the program: the value of the
signal-driven `stop_flag` at each of its reads, the value of
`shared->registered_players` found by each poll of the registration wait, and the
numbers `rand_r(&seed)` returns (the draw of student `id` is indexed by the number
of the match in which it is made; a student draws at most once per match). -/
structure Env where
  stop_flag : Nat → Bool
  registered : Nat → Int
  rand_r : Nat → Nat → Nat

/-- The state of the process that the orchestrator and the students act on: the
shared data, the counting semaphores `player_sems[0..n-1]` and `turn_complete`,
the number of reads of `stop_flag` so far, and the lines printed so far. -/
structure World where
  shared : SharedData
  player_sems : List Nat
  turn_complete : Nat
  stop_reads : Nat
  output : List Event
deriving DecidableEq, Repr

/-- How a run of `run_tournament` ends: it returns, it stays blocked for ever in
`sem_wait(turn_complete)`, or it is still polling the registration when the
observation budget is used up. -/
inductive Outcome where
  | returned (w : World)
  | blocked (w : World)
  | waiting (w : World)
deriving DecidableEq, Repr

/-- A `printf` of one of the tournament lines. -/
def print (e : Event) (w : World) : World :=
  { w with output := w.output ++ [e] }

/-- One read of the volatile `stop_flag`. -/
def read_stop_flag (env : Env) (w : World) : Bool × World :=
  (env.stop_flag w.stop_reads, { w with stop_reads := w.stop_reads + 1 })

/-- The call `sem_post(&player_sems[k])`. -/
def sem_post_player (k : Nat) (w : World) : World :=
  { w with player_sems := w.player_sems.set k (w.player_sems.getD k 0 + 1) }

/-- The move a student generates, `rand_r(&seed) % 3` (line 147). -/
def student_move (env : Env) (id : Nat) (w : World) : Int :=
  (env.rand_r id w.shared.matches_played.toNat : Int) % 3

/-- One pass of student `id` through the `while (1)` loop of `student_thread`
(lines 123–170).  `none`: `sem_wait(player_sem)` blocks (the semaphore is 0).
Otherwise the semaphore is taken and the result is the new state together with
`true` when the student leaves the loop (`break`) and `false` when it goes back to
`sem_wait`. -/
def student_turn (env : Env) (id : Nat) (w : World) : Option (World × Bool) :=
  if w.player_sems.getD id 0 = 0 then none
  else
    let w := { w with player_sems := w.player_sems.set id (w.player_sems.getD id 0 - 1) }
    let game_over := w.shared.game_over
    let (stop, w) := read_stop_flag env w
    if stop ∨ game_over ≠ 0 then some (w, true)
    else
      let is_player := w.shared.current_player1 = id ∨ w.shared.current_player2 = id
      if is_player then
        let move := student_move env id w
        let w := { w with shared :=
          { w.shared with current_moves := w.shared.current_moves.set id move } }
        let w := print (.move_made id move) w
        some ({ w with turn_complete := w.turn_complete + 1 }, false)
      else some (w, false)

/-- A student that is waiting on its semaphore runs one pass of its loop if it
can; a blocked student leaves the state as it is. -/
def student_runs (env : Env) (id : Nat) (w : World) : World :=
  match student_turn env id w with
  | some (w1, _) => w1
  | none => w

/-- The two students woken for a match take their turn, student `i` first. -/
def students_respond (env : Env) (i j : Nat) (w : World) : World :=
  student_runs env j (student_runs env i w)

/-- Opening of a match in `run_tournament` (lines 216–238): count the match, write
the pairing, announce it, wake the two students. -/
def open_match (i j : Nat) (w : World) : World :=
  let w := { w with shared :=
    { w.shared with
      matches_played := w.shared.matches_played + 1
      current_player1 := i
      current_player2 := j } }
  let w := print (.match_start w.shared.matches_played w.shared.total_matches i j) w
  let w := sem_post_player i w
  sem_post_player j w

/-- The announcement of a match result (lines 267–273). -/
def result_event (result : Int) (i j : Nat) : Event :=
  if result = 0 then .draw
  else if result = 1 then .winner i
  else .winner j

/-- Closing of a match in `run_tournament` (lines 241–291): take `turn_complete`
twice, read the moves, score, announce the result.  `Except.error`: the second
`sem_wait(turn_complete)` can never return. -/
def close_match (i j : Nat) (w : World) : Except Outcome World :=
  if w.turn_complete < 2 then .error (.blocked w)
  else
    let w := { w with turn_complete := w.turn_complete - 2 }
    let result := match_result i j w.shared
    let w := { w with shared := score_match i j w.shared }
    .ok (print (result_event result i j) w)

/-- The body of the inner `for` loop of `run_tournament` (lines 211–291) for the
pair `(i, j)`.  `Except.error` carries the outcome when the function ends there
(the `return` of line 213, or a `sem_wait(turn_complete)` that never returns). -/
def play_match (env : Env) (i j : Nat) (w : World) : Except Outcome World :=
  let (stop, w) := read_stop_flag env w
  if stop then .error (.returned (print .tournament_interrupted w))
  else close_match i j (students_respond env i j (open_match i j w))

/-- The nested `for` loops of `run_tournament` (lines 209–293):
`for (i = 0; i < n; i++) for (j = i + 1; j < n; j++)`. -/
def match_loop (env : Env) (n : Nat) (w : World) : Except Outcome World :=
  (List.range n).foldlM
    (fun w i => (List.range' (i + 1) (n - (i + 1))).foldlM (fun w j => play_match env i j w) w) w

/-- The registration wait of `run_tournament` (lines 186–197), `fuel` bounding the
number of polls that are observed; `registered` is the local variable. -/
def wait_registration (env : Env) (n : Nat) :
    Nat → Nat → Int → World → Except Outcome World
  | fuel, poll, registered, w =>
    if registered < (n : Int) then
      match fuel with
      | 0 => .error (.waiting w)
      | fuel + 1 =>
        let (stop, w) := read_stop_flag env w
        if stop then .error (.returned (print .registration_interrupted w))
        else
          let w := { w with shared :=
            { w.shared with registered_players := env.registered poll } }
          wait_registration env n fuel (poll + 1) w.shared.registered_players w
    else .ok w

/-- The end of `run_tournament` (lines 295–303): set `game_over`, wake every
student. -/
def finish_tournament (n : Nat) (w : World) : World :=
  let w := { w with shared := { w.shared with game_over := 1 } }
  (List.range n).foldl (fun w i => sem_post_player i w) w

/-- The function `run_tournament` (lines 182–304). -/
def run_tournament (env : Env) (n : Nat) (fuel : Nat) (w : World) : Outcome :=
  match wait_registration env n fuel 0 0 w with
  | .error o => o
  | .ok w =>
    let w := print .all_registered w
    let w := { w with shared :=
      { w.shared with
        total_matches := Int.tdiv ((n : Int) * ((n : Int) - 1)) 2
        matches_played := 0 } }
    let w := print (.tournament_start w.shared.total_matches) w
    match match_loop env n w with
    | .error o => o
    | .ok w => .returned (finish_tournament n w)

/-- The shared data as `main` sets it up (lines 428–440): `calloc` zeroes it. -/
def initial_shared (n : Nat) : SharedData :=
  { current_moves := List.replicate MAX_PLAYERS 0
    scores := List.replicate MAX_PLAYERS 0
    game_over := 0
    matches_played := 0
    total_matches := 0
    registered_players := 0
    total_players := n
    current_player1 := 0
    current_player2 := 0 }

/-- The state in which `main` calls `run_tournament` (lines 428–460): zeroed
shared data, `n` player semaphores and `turn_complete` initialised to 0. -/
def initial_world (n : Nat) : World :=
  { shared := initial_shared n
    player_sems := List.replicate n 0
    turn_complete := 0
    stop_reads := 0
    output := [] }

/-- The matches announced in the output, in the order of their announcement. -/
def rounds_opened : List Event → List (Nat × Nat)
  | [] => []
  | .match_start _ _ i j :: es => (i, j) :: rounds_opened es
  | _ :: es => rounds_opened es

/-- Both players of the match gain one point. -/
def both_plus_one (i j : Nat) (before after : List Int) : Prop :=
  after.getD i 0 = before.getD i 0 + 1 ∧ after.getD j 0 = before.getD j 0 + 1

/-- Player `a` gains two points and player `b` gains none. -/
def plus_two_zero (a b : Nat) (before after : List Int) : Prop :=
  after.getD a 0 = before.getD a 0 + 2 ∧ after.getD b 0 = before.getD b 0

/-- The shared data in which students 0 and 1 have recorded Rock (0) and
Scissors (1) and nobody has scored yet. -/
def rock_scissors_shared : SharedData :=
  { initial_shared 2 with current_moves := [0, 1, 0, 0, 0, 0, 0, 0, 0, 0] }

/-- The state after an undisturbed match between `i` and `j`, in closed form. -/
def after_match (env : Env) (i j : Nat) (w : World) : World :=
  let mp := w.shared.matches_played + 1
  let mi : Int := (env.rand_r i mp.toNat : Int) % 3
  let mj : Int := (env.rand_r j mp.toNat : Int) % 3
  let result := determine_winner mi mj
  { shared := { w.shared with
      current_moves := (w.shared.current_moves.set i mi).set j mj,
      scores := update_scores result i j w.shared.scores,
      matches_played := mp,
      current_player1 := i,
      current_player2 := j },
    player_sems := w.player_sems,
    turn_complete := w.turn_complete,
    stop_reads := w.stop_reads + 3,
    output := w.output ++
      [Event.match_start mp w.shared.total_matches i j, Event.move_made i mi,
       Event.move_made j mj, result_event result i j] }

/-- The state after the undisturbed matches of student `i` against all later
students, in closed form. -/
def after_row (env : Env) (n i : Nat) (w : World) : World :=
  (List.range' (i + 1) (n - (i + 1))).foldl (fun w j => after_match env i j w) w

/-- The state after all matches of an undisturbed tournament, in closed form. -/
def after_rows (env : Env) (n : Nat) (w : World) : World :=
  (List.range n).foldl (fun w i => after_row env n i w) w

/-- The round-robin schedule in its canonical order: `i = 0 .. n-1`, and for each
`i` the opponents `j = i+1 .. n-1`. -/
def schedule (n : Nat) : List (Nat × Nat) :=
  (List.range n).flatMap (fun i => (List.range' (i + 1) (n - (i + 1))).map (fun j => (i, j)))

/-- The invariant of the match loops that keeps every match undisturbed: the game
is not over and the arrays have their sizes. -/
def loop_inv (sems moves : Nat) (w : World) : Prop :=
  w.shared.game_over = 0 ∧ w.player_sems.length = sems ∧ w.shared.current_moves.length = moves

/-- The state in which the match loops of an undisturbed run start: the state
`main` sets up, with the registration count `r` found by the last poll, `t` reads
of `stop_flag`, the match counters initialised and the two opening lines printed. -/
def loops_start (n : Nat) (r : Int) (t : Nat) : World :=
  { shared := { initial_shared n with
      registered_players := r,
      total_matches := Int.tdiv ((n : Int) * ((n : Int) - 1)) 2,
      matches_played := 0 },
    player_sems := List.replicate n 0,
    turn_complete := 0,
    stop_reads := t,
    output := [Event.all_registered,
      Event.tournament_start (Int.tdiv ((n : Int) * ((n : Int) - 1)) 2)] }

/-- The match results announced in the output, in the order of their
announcement. -/
def results_announced : List Event → List Event
  | [] => []
  | .draw :: es => .draw :: results_announced es
  | .winner id :: es => .winner id :: results_announced es
  | _ :: es => results_announced es

/-- The struct `PlayerResult` of `print_results` (lines 313–316). -/
structure PlayerResult where
  id : Int
  score : Int
deriving DecidableEq, Repr

/-- The content of an array cell that was never written; no such cell is read
while `n ≤ MAX_PLAYERS`. -/
def no_result : PlayerResult := ⟨0, 0⟩

/-- Filling of `results[0..n-1]` in `print_results` (lines 321–324). -/
def collect_results (n : Nat) (scores : List Int) : List PlayerResult :=
  (List.range n).map (fun (i : Nat) => { id := (i : Int), score := scores.getD i 0 })

/-- The exchange of `results[i]` and `results[j]` (lines 331–333). -/
def swap_results (i j : Nat) (results : List PlayerResult) : List PlayerResult :=
  let temp := results.getD i no_result
  let results := results.set i (results.getD j no_result)
  results.set j temp

/-- The body of the inner sorting loop (lines 330–334). -/
def sort_step (i : Nat) (results : List PlayerResult) (j : Nat) : List PlayerResult :=
  if (results.getD j no_result).score > (results.getD i no_result).score then
    swap_results i j results
  else results

/-- The inner sorting loop (lines 329–335): `for (j = i + 1; j < n; j++)`. -/
def sort_pass (n i : Nat) (results : List PlayerResult) : List PlayerResult :=
  (List.range' (i + 1) (n - (i + 1))).foldl (sort_step i) results

/-- The sorting loops of `print_results` (lines 328–336):
`for (i = 0; i < n - 1; i++) for (j = i + 1; j < n; j++)`. -/
def sort_results (n : Nat) (results : List PlayerResult) : List PlayerResult :=
  (List.range (n - 1)).foldl (fun results i => sort_pass n i results) results

/-- The standings `print_results` computes (lines 318–336): the collected
results, sorted. -/
def final_standings (n : Nat) (scores : List Int) : List PlayerResult :=
  sort_results n (collect_results n scores)

/-- The function `print_results` (lines 307–352): the lines of the final standings. -/
def print_results (n : Nat) (w : World) : World :=
  let results := final_standings n w.shared.scores
  (List.range n).foldl
    (fun w (i : Nat) => print (.place (i + 1) (results.getD i no_result).id
      (results.getD i no_result).score) w) w

/-- What `fopen(path, "r")` followed by `fscanf(infile, "%d", &n)` finds
(lines 390–392): the file cannot be opened, it does not start with an integer, or
the integer it starts with. -/
inductive FileRead where
  | cannot_open
  | no_integer
  | value (n : Int)
deriving DecidableEq, Repr

/-- The library and the file system as `main` uses them at start-up: `atoi` and the
reading of an integer from a file. -/
structure System where
  atoi : String → Int
  read_int : String → FileRead

/-- The local variables of `main` that hold the configuration (lines 359–362). -/
structure Locals where
  n : Int
  output_file : Option String
  input_file : Option String
  use_input_file : Bool
deriving DecidableEq, Repr

/-- The defaults of lines 359–362. -/
def default_locals : Locals :=
  { n := 4, output_file := none, input_file := none, use_input_file := false }

/-- The argument loop of `main` (lines 365–386) over `argv[i..argc-1]`: the
argument `a = argv[i]`, and `v = argv[i+1]` when `i + 1 < argc`.
`Except.error code`: `main` returns `code` from inside the loop. -/
def parse_args (atoi : String → Int) : List String → Locals → Except Int Locals
  | [], c => .ok c
  | [a], c =>
    if a = "-h" ∨ a = "--help" then .error 0
    else .ok c
  | a :: v :: rest, c =>
    if a = "-n" then
      let n := atoi v
      if n < 2 ∨ n > (MAX_PLAYERS : Int) then .error 1
      else parse_args atoi rest { c with n := n }
    else if a = "-o" then parse_args atoi rest { c with output_file := some v }
    else if a = "-i" then
      parse_args atoi rest { c with input_file := some v, use_input_file := true }
    else if a = "-h" ∨ a = "--help" then .error 0
    else parse_args atoi (v :: rest) c

/-- The reading of the roster size from the input file (lines 389–406). -/
def read_input_file (sys : System) (c : Locals) : Except Int Locals :=
  match c.use_input_file, c.input_file with
  | true, some path =>
    match sys.read_int path with
    | .cannot_open => .error 1
    | .no_integer => .error 1
    | .value n =>
      if n < 2 ∨ n > (MAX_PLAYERS : Int) then .error 1
      else .ok { c with n := n }
  | _, _ => .ok c

/-- The start-up of `main` (lines 358–406) for the arguments `argv[1..argc-1]`:
`Except.error code` when `main` returns `code` there, before line 408 and so
before the shared data, the semaphores and the threads are created (lines
428–489); otherwise the configuration with which `main` goes on. -/
def startup (sys : System) (args : List String) : Except Int Locals :=
  match parse_args sys.atoi args default_locals with
  | .error code => .error code
  | .ok c => read_input_file sys c

/-- The scan of the argument loop consumes exactly the arguments `pre`, every
option `-n`, `-o`, `-i` in them together with its value, without returning, and
takes the locals from `c` to `c'`.  It is the relation for a part of the argument
list that other arguments may follow; `ScannedToEnd` is the one for a scan that
runs to the end of the list. -/
inductive Scanned (atoi : String → Int) : List String → Locals → Locals → Prop where
  | done (c : Locals) : Scanned atoi [] c c
  | roster (v : String) (rest : List String) (c c' : Locals)
      (hv : ¬ (atoi v < 2 ∨ atoi v > (MAX_PLAYERS : Int)))
      (h : Scanned atoi rest { c with n := atoi v } c') :
      Scanned atoi ("-n" :: v :: rest) c c'
  | output (v : String) (rest : List String) (c c' : Locals)
      (h : Scanned atoi rest { c with output_file := some v } c') :
      Scanned atoi ("-o" :: v :: rest) c c'
  | input (v : String) (rest : List String) (c c' : Locals)
      (h : Scanned atoi rest { c with input_file := some v, use_input_file := true } c') :
      Scanned atoi ("-i" :: v :: rest) c c'
  | other (a : String) (rest : List String) (c c' : Locals)
      (ha : a ≠ "-n" ∧ a ≠ "-o" ∧ a ≠ "-i" ∧ a ≠ "-h" ∧ a ≠ "--help")
      (h : Scanned atoi rest c c') :
      Scanned atoi (a :: rest) c c'

/-- The scan of the argument loop runs through all of `args` to the end of the
list without returning, and takes the locals from `c` to `c'`: either every option
in `args` has its value, or the last argument is a `-n`, `-o` or `-i` without a
value, which the loop passes over (`i + 1 < argc` fails, lines 366–374). -/
inductive ScannedToEnd (atoi : String → Int) : List String → Locals → Locals → Prop where
  | whole (args : List String) (c c' : Locals) (h : Scanned atoi args c c') :
      ScannedToEnd atoi args c c'
  | trailing (pre : List String) (a : String) (c c' : Locals)
      (ha : a = "-n" ∨ a = "-o" ∨ a = "-i")
      (h : Scanned atoi pre c c') :
      ScannedToEnd atoi (pre ++ [a]) c c'

/-- The roster size `n` is refused by the range check of lines 368 and 398. -/
def out_of_range (n : Int) : Prop := n < 2 ∨ n > (MAX_PLAYERS : Int)

/-- The input file `path` makes `main` return 1 (lines 392–404): it cannot be
opened, it does not start with an integer, or its integer is out of range. -/
def bad_input_file (sys : System) (path : String) : Prop :=
  sys.read_int path = .cannot_open ∨ sys.read_int path = .no_integer ∨
    ∃ n, sys.read_int path = .value n ∧ out_of_range n

/-- How the program ends: `main` returns `code`, or a thread stays blocked for ever
in a `sem_wait` and `main` never returns, or the orchestrator is still polling the
registration when the observation budget is used up. -/
inductive ProgramOutcome where
  | exits (code : Int) (output : List Event)
  | hangs (w : World)
  | polling (w : World)
deriving DecidableEq, Repr

/-- Student `id` from its `sem_wait` on: it passes through its loop until it breaks
out of it and prints its last line (lines 123–178).  `none`: it blocks in
`sem_wait(player_sem)` on a semaphore that is 0.  Every pass takes the semaphore
once, so a budget of one more than the semaphore's value is never used up. -/
def student_loop (env : Env) (id : Nat) : Nat → World → Option World
  | 0, _ => none
  | fuel + 1, w =>
    match student_turn env id w with
    | none => none
    | some (w, true) => some (print (.student_done id) w)
    | some (w, false) => student_loop env id fuel w

/-- The call `pthread_join(threads[id], NULL)` (line 499) once `run_tournament` has returned:
nobody posts `player_sems[id]` any more, so the call returns exactly when the
student leaves its loop with the wake-ups it already has. -/
def pthread_join (env : Env) (id : Nat) (w : World) : Option World :=
  student_loop env id (w.player_sems.getD id 0 + 1) w

/-- The joining loop of `main` (lines 498–500). -/
def join_students (env : Env) (n : Nat) (w : World) : Option World :=
  (List.range n).foldlM (fun w id => pthread_join env id w) w

/-- The function `main` from line 408 on, for the roster size `n`, when every allocation and
thread creation succeeds: set up the shared state, run the tournament, join the
students, print the standings, return 0 (lines 408–525). -/
def main_tournament (env : Env) (n : Nat) (fuel : Nat) : ProgramOutcome :=
  match run_tournament env n fuel (initial_world n) with
  | .returned w =>
    match join_students env n w with
    | some w => .exits 0 (print_results n w).output
    | none => .hangs w
  | .blocked w => .hangs w
  | .waiting w => .polling w

/-- The function `main` (lines 354–525) for the arguments `argv[1..argc-1]`. -/
def main (sys : System) (env : Env) (args : List String) (fuel : Nat) : ProgramOutcome :=
  match startup sys args with
  | .error code => .exits code []
  | .ok c => main_tournament env c.n.toNat fuel

/-- An environment in which the interrupt arrives before the orchestrator's first
poll of the registration: every read of `stop_flag` finds it set. -/
def cancelled_at_start : Env :=
  { stop_flag := fun _ => true, registered := fun _ => 0, rand_r := fun _ _ => 0 }

/-- An environment in which all students are registered at the first poll and the
interrupt arrives after it, before the first match: every read of `stop_flag` but
the first finds it set. -/
def cancelled_before_first_match : Env :=
  { stop_flag := fun t => decide (1 ≤ t), registered := fun _ => 10, rand_r := fun _ _ => 0 }

/-- An environment without interrupt in which all students are registered at the
first poll and always draw Rock. -/
def undisturbed : Env :=
  { stop_flag := fun _ => false, registered := fun _ => 10, rand_r := fun _ _ => 0 }

/-! ### The threads, interleaved

The orchestrator and the students as one transition system.  A step is one
statement, or one critical section of `data_mutex`, of one thread; a thread that
is scheduled while it is blocked in `sem_wait` makes no progress.  `sem_wait`
returns only with the semaphore taken: the handler is installed with `signal`,
under which an interrupted `sem_wait` is restarted, so that the `-1` branch of
lines 126–129 is not taken. -/

/-- Where the orchestrator stands in `run_tournament`. -/
inductive OPc where
  /-- Line 187, the loop condition, with the local `registered`. -/
  | reg_loop (registered : Int)
  /-- Line 189, after the `sleep(1)`. -/
  | reg_stop
  /-- Lines 194–196. -/
  | reg_read
  /-- Lines 201–204. -/
  | init_counters
  /-- Line 209, the condition `i < n`. -/
  | outer (i : Nat)
  /-- Line 210, the condition `j < n`. -/
  | inner (i j : Nat)
  /-- Line 211. -/
  | stop_check (i j : Nat)
  /-- Lines 216–220, the critical section that writes the pairing. -/
  | pair (i j : Nat)
  /-- Line 237. -/
  | post1 (i j : Nat)
  /-- Line 238. -/
  | post2 (i j : Nat)
  /-- Line 241. -/
  | wait1 (i j : Nat)
  /-- Line 242. -/
  | wait2 (i j : Nat)
  /-- Lines 246–249, the critical section that reads the two moves. -/
  | read (i j : Nat)
  /-- Lines 251–291, with the locals `move1` and `move2`. -/
  | score (i j : Nat) (move1 move2 : Int)
  /-- Lines 296–298. -/
  | finish
  /-- Lines 301–303, the condition `i < n` and the `sem_post`. -/
  | wake (i : Nat)
  /-- The function `run_tournament` has returned. -/
  | returned
deriving DecidableEq, Repr

/-- Where a student stands in `student_thread`. -/
inductive SPc where
  /-- Lines 111–120, before the registration. -/
  | start
  /-- Line 125, in `sem_wait(player_sem)`. -/
  | waiting
  /-- Lines 131–133, the critical section that reads `game_over`. -/
  | woken
  /-- Line 135, with the local `game_over`. -/
  | checked (game_over : Int)
  /-- Lines 140–143, the critical section that reads the pairing. -/
  | is_player
  /-- Lines 147–151, the draw of the move and the critical section that records it. -/
  | move
  /-- Line 168. -/
  | post
  /-- The loop is left (lines 172–178). -/
  | done
deriving DecidableEq, Repr

/-- What happens next: the orchestrator takes a step, student `id` takes a step
(`r` is what `rand_r` returns if it is called in that step), or the signal handler
runs. -/
inductive Action where
  | orch
  | student (id r : Nat)
  | signal
deriving DecidableEq, Repr

/-- The state of the interleaved program.  The last four fields are history
variables of the match in flight, reset when its scoring is done; they influence
no step: the number of posts of `player_sems[k]`, of writes of `current_moves` by
student `k`, of posts of `turn_complete` by student `k`, and of `turn_complete`
waits the orchestrator has completed. -/
structure CState where
  shared : SharedData
  stop_flag : Bool
  player_sems : Nat → Nat
  turn_complete : Nat
  orch : OPc
  student : Nat → SPc
  woken : Nat → Nat
  wrote : Nat → Nat
  posted : Nat → Nat
  taken : Nat

/-- The array `f` with cell `k` set to `v`. -/
def upd {α : Type} (f : Nat → α) (k : Nat) (v : α) : Nat → α :=
  fun x => if x = k then v else f x

/-- One step of the orchestrator in `run_tournament` (lines 186–303). -/
def orch_step (n : Nat) (s : CState) : CState :=
  match s.orch with
  | .reg_loop registered =>
    if registered < (n : Int) then { s with orch := .reg_stop }
    else { s with orch := .init_counters }
  | .reg_stop =>
    if s.stop_flag then { s with orch := .returned }
    else { s with orch := .reg_read }
  | .reg_read => { s with orch := .reg_loop s.shared.registered_players }
  | .init_counters =>
    { s with
      shared := { s.shared with
        total_matches := Int.tdiv ((n : Int) * ((n : Int) - 1)) 2
        matches_played := 0 }
      orch := .outer 0 }
  | .outer i =>
    if i < n then { s with orch := .inner i (i + 1) }
    else { s with orch := .finish }
  | .inner i j =>
    if j < n then { s with orch := .stop_check i j }
    else { s with orch := .outer (i + 1) }
  | .stop_check i j =>
    if s.stop_flag then { s with orch := .returned }
    else { s with orch := .pair i j }
  | .pair i j =>
    { s with
      shared := { s.shared with
        matches_played := s.shared.matches_played + 1
        current_player1 := i
        current_player2 := j }
      orch := .post1 i j }
  | .post1 i j =>
    { s with
      player_sems := upd s.player_sems i (s.player_sems i + 1)
      woken := upd s.woken i (s.woken i + 1)
      orch := .post2 i j }
  | .post2 i j =>
    { s with
      player_sems := upd s.player_sems j (s.player_sems j + 1)
      woken := upd s.woken j (s.woken j + 1)
      orch := .wait1 i j }
  | .wait1 i j =>
    if s.turn_complete = 0 then s
    else { s with turn_complete := s.turn_complete - 1, taken := s.taken + 1, orch := .wait2 i j }
  | .wait2 i j =>
    if s.turn_complete = 0 then s
    else { s with turn_complete := s.turn_complete - 1, taken := s.taken + 1, orch := .read i j }
  | .read i j =>
    { s with orch := .score i j (s.shared.current_moves.getD i 0) (s.shared.current_moves.getD j 0) }
  | .score i j move1 move2 =>
    { s with
      shared := { s.shared with
        scores := update_scores (determine_winner move1 move2) i j s.shared.scores }
      orch := .inner i (j + 1)
      woken := fun _ => 0
      wrote := fun _ => 0
      posted := fun _ => 0
      taken := 0 }
  | .finish => { s with shared := { s.shared with game_over := 1 }, orch := .wake 0 }
  | .wake i =>
    if i < n then
      { s with player_sems := upd s.player_sems i (s.player_sems i + 1), orch := .wake (i + 1) }
    else { s with orch := .returned }
  | .returned => s

/-- One step of student `id` in `student_thread` (lines 111–178). -/
def student_step (n id r : Nat) (s : CState) : CState :=
  if id < n then
    match s.student id with
    | .start =>
      { s with
        shared := { s.shared with registered_players := s.shared.registered_players + 1 }
        student := upd s.student id .waiting }
    | .waiting =>
      if s.player_sems id = 0 then s
      else
        { s with
          player_sems := upd s.player_sems id (s.player_sems id - 1)
          student := upd s.student id .woken }
    | .woken => { s with student := upd s.student id (.checked s.shared.game_over) }
    | .checked game_over =>
      if s.stop_flag = true ∨ game_over ≠ 0 then { s with student := upd s.student id .done }
      else { s with student := upd s.student id .is_player }
    | .is_player =>
      if s.shared.current_player1 = id ∨ s.shared.current_player2 = id then
        { s with student := upd s.student id .move }
      else { s with student := upd s.student id .waiting }
    | .move =>
      { s with
        shared := { s.shared with
          current_moves := s.shared.current_moves.set id ((r : Int) % 3) }
        wrote := upd s.wrote id (s.wrote id + 1)
        student := upd s.student id .post }
    | .post =>
      { s with
        turn_complete := s.turn_complete + 1
        posted := upd s.posted id (s.posted id + 1)
        student := upd s.student id .waiting }
    | .done => s
  else s

/-- One step of the interleaved program. -/
def step (n : Nat) (a : Action) (s : CState) : CState :=
  match a with
  | .orch => orch_step n s
  | .student id r => student_step n id r s
  | .signal => { s with stop_flag := true }

/-- The state after a schedule of steps. -/
def run (n : Nat) (acts : List Action) (s : CState) : CState :=
  acts.foldl (fun s a => step n a s) s

/-- The state in which the threads start: the shared data zeroed, all semaphores
0, no signal yet, the orchestrator at the registration wait, no student
registered. -/
def cinit (n : Nat) : CState :=
  { shared := initial_shared n
    stop_flag := false
    player_sems := fun _ => 0
    turn_complete := 0
    orch := .reg_loop 0
    student := fun _ => .start
    woken := fun _ => 0
    wrote := fun _ => 0
    posted := fun _ => 0
    taken := 0 }

/-- The states the interleaved program of `n` students can reach. -/
def Reachable (n : Nat) (s : CState) : Prop :=
  ∃ acts, run n acts (cinit n) = s

/-- Whether a student holds a wake-up it has not answered yet: it has taken its
semaphore and has not yet posted `turn_complete` or left. -/
def active : SPc → Nat
  | .woken => 1
  | .checked _ => 1
  | .is_player => 1
  | .move => 1
  | .post => 1
  | _ => 0

/-- Whether a student has left its loop. -/
def is_done : SPc → Nat
  | .done => 1
  | _ => 0

/-- Whether a student has recorded its move and not yet posted `turn_complete`. -/
def is_post : SPc → Nat
  | .post => 1
  | _ => 0

/-- The orchestrator has left the match loops for good. -/
def is_terminal : OPc → Bool
  | .finish => true
  | .wake _ => true
  | .returned => true
  | _ => false

/-- The pair of loop indices the orchestrator works on. -/
def pair_of : OPc → Nat × Nat
  | .inner i j => (i, j)
  | .stop_check i j => (i, j)
  | .pair i j => (i, j)
  | .post1 i j => (i, j)
  | .post2 i j => (i, j)
  | .wait1 i j => (i, j)
  | .wait2 i j => (i, j)
  | .read i j => (i, j)
  | .score i j _ _ => (i, j)
  | _ => (0, 1)

/-- A match is in flight: its pairing is written and its scoring is not done. -/
def in_round : OPc → Bool
  | .post1 _ _ => true
  | .post2 _ _ => true
  | .wait1 _ _ => true
  | .wait2 _ _ => true
  | .read _ _ => true
  | .score _ _ _ _ => true
  | _ => false

/-- The number of wake-ups student `k` has been sent in the match in flight, as the
position of the orchestrator determines it. -/
def exp_woken : OPc → Nat → Nat
  | .post2 i _, k => if k = i then 1 else 0
  | .wait1 i j, k => if k = i ∨ k = j then 1 else 0
  | .wait2 i j, k => if k = i ∨ k = j then 1 else 0
  | .read i j, k => if k = i ∨ k = j then 1 else 0
  | .score i j _ _, k => if k = i ∨ k = j then 1 else 0
  | _, _ => 0

/-- The number of `turn_complete` waits completed in the match in flight, as the
position of the orchestrator determines it. -/
def exp_taken : OPc → Nat
  | .wait2 _ _ => 1
  | .read _ _ => 2
  | .score _ _ _ _ => 2
  | _ => 0

/-- The invariant of the interleaved program while the orchestrator is in the
registration wait or the match loops. -/
structure Core (s : CState) : Prop where
  pair_lt : (pair_of s.orch).1 < (pair_of s.orch).2
  pairing : in_round s.orch = true →
    s.shared.current_player1 = ((pair_of s.orch).1 : Int) ∧
    s.shared.current_player2 = ((pair_of s.orch).2 : Int)
  taken_eq : s.taken = exp_taken s.orch
  woken_eq : ∀ k, s.woken k = exp_woken s.orch k
  tokens : ∀ k,
    s.posted k + s.player_sems k + active (s.student k) + is_done (s.student k) ≤ s.woken k
  wrote_eq : ∀ k, s.wrote k = s.posted k + is_post (s.student k)
  signals : s.turn_complete + s.taken
    = s.posted (pair_of s.orch).1 + s.posted (pair_of s.orch).2
  moves_ok : ∀ k, 0 ≤ s.shared.current_moves.getD k 0 ∧ s.shared.current_moves.getD k 0 ≤ 2
  not_over : s.shared.game_over = 0
  running : is_terminal s.orch = false

/-- The game is not over, every wake semaphore is 0 and every student is before or
in its `sem_wait`: no student can take another step but its registration. -/
def Asleep (s : CState) : Prop :=
  s.shared.game_over = 0 ∧
    ∀ k, s.player_sems k = 0 ∧ (s.student k = .start ∨ s.student k = .waiting)

/-- The invariant of the interleaved program once the orchestrator has left the
match loops: it is about to set `game_over`, or `game_over` is set, or it has
returned early and left all students asleep. -/
def Term (s : CState) : Prop :=
  s.orch = .finish ∨ s.shared.game_over = 1 ∨ (s.orch = .returned ∧ Asleep s)

/-- The invariant of the interleaved program. -/
def Inv (s : CState) : Prop :=
  (is_terminal s.orch = true ∧ Term s) ∨ Core s

/-- A schedule of two students up to the read of the moves of their match: both
register, the orchestrator goes through the registration wait and opens the match,
student 1 (drawing 7, Scissors) answers before student 0 (drawing 0, Rock), and
the orchestrator takes `turn_complete` twice. -/
def rendezvous_schedule : List Action :=
  [.student 0 0, .student 1 0] ++ List.replicate 11 .orch ++
  List.replicate 6 (.student 1 7) ++ List.replicate 6 (.student 0 0) ++ [.orch, .orch]

/-- A schedule in which the interrupt arrives first and the orchestrator then sees
it at the first check of the registration wait and returns. -/
def cancel_schedule : List Action :=
  [.signal, .orch, .orch]

/-! ## Theorems -/

/-! ### Array access lemmas -/

theorem getD_set_self {α : Type} (l : List α) (i : Nat) (a d : α) (h : i < l.length) :
    (l.set i a).getD i d = a := by
  simp [List.getD_eq_getElem?_getD, List.getElem?_set, h]

theorem getD_set_ne {α : Type} (l : List α) (i j : Nat) (a d : α) (h : i ≠ j) :
    (l.set i a).getD j d = l.getD j d := by
  simp [List.getD_eq_getElem?_getD, List.getElem?_set, h]

theorem sum_set_getD (l : List Int) (i : Nat) (c : Int) (h : i < l.length) :
    (l.set i (l.getD i 0 + c)).sum = l.sum + c := by
  induction l generalizing i with
  | nil => simp at h
  | cons x xs ih =>
    cases i with
    | zero => simp; ring
    | succ k =>
      have hk : k < xs.length := by simpa using h
      simp only [List.set_cons_succ, List.sum_cons, List.getD_cons_succ]
      rw [ih k hk]; ring

/-! ### The move-dominance rule -/

/-- C1: `determine_winner` returns 0 exactly when the moves are equal, 1 exactly
when the pair is one of (0,1), (1,2), (2,0), and 2 in every other case; so Rock (0)
beats Scissors (1), Scissors beats Paper (2) and Paper beats Rock. -/
theorem determine_winner_rule (c1 c2 : Int) :
    (determine_winner c1 c2 = 0 ↔ c1 = c2) ∧
    (determine_winner c1 c2 = 1 ↔
      (c1 = 0 ∧ c2 = 1) ∨ (c1 = 1 ∧ c2 = 2) ∨ (c1 = 2 ∧ c2 = 0)) ∧
    (determine_winner c1 c2 = 2 ↔
      ¬ c1 = c2 ∧ ¬ ((c1 = 0 ∧ c2 = 1) ∨ (c1 = 1 ∧ c2 = 2) ∨ (c1 = 2 ∧ c2 = 0))) ∧
    determine_winner 0 1 = 1 ∧ determine_winner 1 2 = 1 ∧ determine_winner 2 0 = 1 ∧
    determine_winner 1 0 = 2 ∧ determine_winner 2 1 = 2 ∧ determine_winner 0 2 = 2 := by
  refine ⟨?_, ?_, ?_, by decide, by decide, by decide, by decide, by decide, by decide⟩
  · unfold determine_winner
    split_ifs with h1 h2 <;> simp [h1]
  · unfold determine_winner
    split_ifs with h1 h2
    · subst h1
      constructor
      · intro h; exact absurd h (by decide)
      · rintro (⟨a, b⟩ | ⟨a, b⟩ | ⟨a, b⟩) <;> omega
    · simp [h2]
    · simp [h2]
  · unfold determine_winner
    split_ifs with h1 h2
    · simp [h1]
    · simp [h2]
    · simp [h1, h2]

/-- C2: on the moves {0,1,2} dominance is antisymmetric and cyclic: `a` beats `b`
exactly when `b` loses to `a` from the other side, draws are symmetric, a win is
never mirrored by a win, every move beats exactly one other move and is beaten by
exactly one other move, and so no move beats all the others. -/
theorem dominance_cyclic (a b : Int) (ha : 0 ≤ a ∧ a ≤ 2) (hb : 0 ≤ b ∧ b ≤ 2) :
    (determine_winner a b = 1 ↔ determine_winner b a = 2) ∧
    (determine_winner a b = 0 ↔ determine_winner b a = 0) ∧
    (determine_winner a b = 1 → determine_winner b a ≠ 1) ∧
    (∃! x : Int, (0 ≤ x ∧ x ≤ 2) ∧ x ≠ a ∧ determine_winner a x = 1) ∧
    (∃! y : Int, (0 ≤ y ∧ y ≤ 2) ∧ y ≠ a ∧ determine_winner y a = 1) ∧
    ¬ (∀ x : Int, 0 ≤ x ∧ x ≤ 2 → x ≠ a → determine_winner a x = 1) := by
  obtain ⟨ha0, ha2⟩ := ha
  obtain ⟨hb0, hb2⟩ := hb
  refine ⟨?_, ?_, ?_, ?_, ?_, ?_⟩
  · interval_cases a <;> interval_cases b <;> decide
  · interval_cases a <;> interval_cases b <;> decide
  · interval_cases a <;> interval_cases b <;> decide
  · interval_cases a
    · refine ⟨1, by decide, ?_⟩
      rintro y ⟨⟨h0, h2⟩, -, hw⟩
      interval_cases y <;> first | rfl | exact absurd hw (by decide)
    · refine ⟨2, by decide, ?_⟩
      rintro y ⟨⟨h0, h2⟩, -, hw⟩
      interval_cases y <;> first | rfl | exact absurd hw (by decide)
    · refine ⟨0, by decide, ?_⟩
      rintro y ⟨⟨h0, h2⟩, -, hw⟩
      interval_cases y <;> first | rfl | exact absurd hw (by decide)
  · interval_cases a
    · refine ⟨2, by decide, ?_⟩
      rintro y ⟨⟨h0, h2⟩, -, hw⟩
      interval_cases y <;> first | rfl | exact absurd hw (by decide)
    · refine ⟨0, by decide, ?_⟩
      rintro y ⟨⟨h0, h2⟩, -, hw⟩
      interval_cases y <;> first | rfl | exact absurd hw (by decide)
    · refine ⟨1, by decide, ?_⟩
      rintro y ⟨⟨h0, h2⟩, -, hw⟩
      interval_cases y <;> first | rfl | exact absurd hw (by decide)
  · intro h
    interval_cases a
    · exact absurd (h 2 (by decide) (by decide)) (by decide)
    · exact absurd (h 0 (by decide) (by decide)) (by decide)
    · exact absurd (h 1 (by decide) (by decide)) (by decide)

/-- Witness of C2 at Rock (0) against Scissors (1). -/
theorem dominance_cyclic_witness :
    ((0 : Int) ≤ 0 ∧ (0 : Int) ≤ 2) ∧ ((0 : Int) ≤ 1 ∧ (1 : Int) ≤ 2) ∧
    (determine_winner 0 1 = 1 ↔ determine_winner 1 0 = 2) ∧
    determine_winner 0 1 = 1 ∧ determine_winner 1 0 = 2 :=
  ⟨by decide, by decide, (dominance_cyclic 0 1 (by decide) (by decide)).1, by decide, by decide⟩

/-! ### The scoring step -/

theorem update_scores_length (r : Int) (i j : Nat) (sc : List Int) :
    (update_scores r i j sc).length = sc.length := by
  unfold update_scores
  split_ifs <;> simp

theorem update_scores_other (r : Int) (i j k : Nat) (sc : List Int) (hi : k ≠ i) (hj : k ≠ j) :
    (update_scores r i j sc).getD k 0 = sc.getD k 0 := by
  unfold update_scores
  split_ifs <;> simp [getD_set_ne, Ne.symm hi, Ne.symm hj]

theorem update_scores_draw (i j : Nat) (sc : List Int) (hij : i ≠ j)
    (hi : i < sc.length) (hj : j < sc.length) :
    (update_scores 0 i j sc).getD i 0 = sc.getD i 0 + 1 ∧
    (update_scores 0 i j sc).getD j 0 = sc.getD j 0 + 1 := by
  unfold update_scores
  simp [getD_set_ne, getD_set_self, hij, Ne.symm hij, hi, hj]

theorem update_scores_first (i j : Nat) (sc : List Int) (hij : i ≠ j)
    (hi : i < sc.length) :
    (update_scores 1 i j sc).getD i 0 = sc.getD i 0 + 2 ∧
    (update_scores 1 i j sc).getD j 0 = sc.getD j 0 := by
  unfold update_scores
  simp [getD_set_ne, getD_set_self, hij, hi]

theorem update_scores_second (r : Int) (i j : Nat) (sc : List Int) (hij : i ≠ j)
    (h0 : r ≠ 0) (h1 : r ≠ 1) (hj : j < sc.length) :
    (update_scores r i j sc).getD i 0 = sc.getD i 0 ∧
    (update_scores r i j sc).getD j 0 = sc.getD j 0 + 2 := by
  unfold update_scores
  simp [getD_set_ne, getD_set_self, Ne.symm hij, hj, h0, h1]

theorem update_scores_sum (r : Int) (i j : Nat) (sc : List Int)
    (hi : i < sc.length) (hj : j < sc.length) :
    (update_scores r i j sc).sum = sc.sum + 2 := by
  unfold update_scores
  split_ifs
  · simp only
    rw [sum_set_getD _ _ _ (by simpa using hj), sum_set_getD _ _ _ hi]; ring
  · exact sum_set_getD _ _ _ hi
  · exact sum_set_getD _ _ _ hj

theorem determine_winner_cases (a b : Int) :
    determine_winner a b = 0 ∨ determine_winner a b = 1 ∨ determine_winner a b = 2 := by
  unfold determine_winner
  split_ifs <;> simp

/-- C3: the scoring step of a match between `i < j` changes the scores in exactly
one of three ways: both +1 (exactly when the recorded moves are equal), `i` +2 and
`j` +0 (exactly when `i`'s move beats `j`'s), or `j` +2 and `i` +0; the sum of all
scores grows by exactly 2, no score decreases, the scores of all other players and
all other shared fields are unchanged. -/
theorem score_match_step (s : SharedData) (i j : Nat) (hij : i < j)
    (hj : j < s.scores.length) :
    ((s.current_moves.getD i 0 = s.current_moves.getD j 0 ∧
        both_plus_one i j s.scores (score_match i j s).scores ∧
        ¬ plus_two_zero i j s.scores (score_match i j s).scores ∧
        ¬ plus_two_zero j i s.scores (score_match i j s).scores) ∨
      (determine_winner (s.current_moves.getD i 0) (s.current_moves.getD j 0) = 1 ∧
        ¬ both_plus_one i j s.scores (score_match i j s).scores ∧
        plus_two_zero i j s.scores (score_match i j s).scores ∧
        ¬ plus_two_zero j i s.scores (score_match i j s).scores) ∨
      (determine_winner (s.current_moves.getD i 0) (s.current_moves.getD j 0) = 2 ∧
        ¬ both_plus_one i j s.scores (score_match i j s).scores ∧
        ¬ plus_two_zero i j s.scores (score_match i j s).scores ∧
        plus_two_zero j i s.scores (score_match i j s).scores)) ∧
    (score_match i j s).scores.sum = s.scores.sum + 2 ∧
    (∀ k, s.scores.getD k 0 ≤ (score_match i j s).scores.getD k 0) ∧
    (∀ k, k ≠ i → k ≠ j → (score_match i j s).scores.getD k 0 = s.scores.getD k 0) ∧
    (score_match i j s).scores.length = s.scores.length ∧
    score_match i j s = { s with scores := (score_match i j s).scores } := by
  have hne : i ≠ j := Nat.ne_of_lt hij
  have hi : i < s.scores.length := lt_trans hij hj
  have hcases : both_plus_one i j s.scores (score_match i j s).scores ∨
      plus_two_zero i j s.scores (score_match i j s).scores ∨
      plus_two_zero j i s.scores (score_match i j s).scores := by
    rcases determine_winner_cases (s.current_moves.getD i 0) (s.current_moves.getD j 0)
      with h | h | h
    · left
      simp only [score_match, match_result, h]
      exact update_scores_draw i j s.scores hne hi hj
    · right; left
      simp only [score_match, match_result, h]
      exact update_scores_first i j s.scores hne hi
    · right; right
      simp only [score_match, match_result, h]
      exact (update_scores_second 2 i j s.scores hne (by decide) (by decide) hj).symm
  refine ⟨?_, ?_, ?_, ?_, ?_, rfl⟩
  · rcases determine_winner_cases (s.current_moves.getD i 0) (s.current_moves.getD j 0)
      with h | h | h
    · left
      have hd := update_scores_draw i j s.scores hne hi hj
      refine ⟨(determine_winner_rule _ _).1.mp h, ?_, ?_, ?_⟩
      · simpa only [score_match, match_result, h] using hd
      · simp only [score_match, match_result, h, plus_two_zero]; omega
      · simp only [score_match, match_result, h, plus_two_zero]; omega
    · right; left
      have hd := update_scores_first i j s.scores hne hi
      refine ⟨h, ?_, ?_, ?_⟩
      · simp only [score_match, match_result, h, both_plus_one]; omega
      · simpa only [score_match, match_result, h] using hd
      · simp only [score_match, match_result, h, plus_two_zero]; omega
    · right; right
      have hd := update_scores_second 2 i j s.scores hne (by decide) (by decide) hj
      refine ⟨h, ?_, ?_, ?_⟩
      · simp only [score_match, match_result, h, both_plus_one]; omega
      · simp only [score_match, match_result, h, plus_two_zero]; omega
      · simp only [score_match, match_result, h, plus_two_zero]; omega
  · exact update_scores_sum _ i j s.scores hi hj
  · intro k
    by_cases hki : k = i
    · subst hki
      rcases hcases with h | h | h
      · have := h.1; omega
      · have := h.1; omega
      · have := h.2; omega
    · by_cases hkj : k = j
      · subst hkj
        rcases hcases with h | h | h
        · have := h.2; omega
        · have := h.2; omega
        · have := h.1; omega
      · exact le_of_eq (update_scores_other _ i j k s.scores hki hkj).symm
  · intro k hki hkj
    exact update_scores_other _ i j k s.scores hki hkj
  · exact update_scores_length _ i j s.scores

/-- Witness of C3: Rock (0) for student 0 against Scissors (1) for student 1 from
zero scores: the first student wins and the scores become [2, 0]. -/
theorem score_match_step_witness :
    (0 < 1 ∧ 1 < rock_scissors_shared.scores.length) ∧
    match_result 0 1 rock_scissors_shared = 1 ∧
    (score_match 0 1 rock_scissors_shared).scores.take 2 = [2, 0] ∧
    (score_match 0 1 rock_scissors_shared).scores.sum = rock_scissors_shared.scores.sum + 2 :=
  ⟨by decide, by decide, by decide,
    (score_match_step rock_scissors_shared 0 1 (by decide) (by decide)).2.1⟩

/-! ### One undisturbed match -/

theorem set_getD_same (l : List Nat) (i : Nat) : l.set i (l.getD i 0) = l := by
  apply List.ext_getElem?
  intro k
  by_cases h : i = k
  · subst h
    by_cases hl : i < l.length
    · simp [List.getElem?_set, hl, List.getD_eq_getElem?_getD]
    · simp [List.getElem?_set, hl]
      omega
  · simp [List.getElem?_set, h]

theorem post_post_take_take (l : List Nat) (i j : Nat) (hij : i ≠ j)
    (hi : i < l.length) (hj : j < l.length) :
    (((l.set i (l.getD i 0 + 1)).set j ((l.set i (l.getD i 0 + 1)).getD j 0 + 1)).set i
      (((l.set i (l.getD i 0 + 1)).set j ((l.set i (l.getD i 0 + 1)).getD j 0 + 1)).getD i 0
        - 1)).set j
      ((((l.set i (l.getD i 0 + 1)).set j ((l.set i (l.getD i 0 + 1)).getD j 0 + 1)).set i
      (((l.set i (l.getD i 0 + 1)).set j ((l.set i (l.getD i 0 + 1)).getD j 0 + 1)).getD i 0
        - 1)).getD j 0 - 1) = l := by
  have e1 : (l.set i (l.getD i 0 + 1)).getD j 0 = l.getD j 0 := getD_set_ne _ _ _ _ _ hij
  rw [e1]
  have e2 : ((l.set i (l.getD i 0 + 1)).set j (l.getD j 0 + 1)).getD i 0 = l.getD i 0 + 1 := by
    rw [getD_set_ne _ _ _ _ _ (Ne.symm hij), getD_set_self _ _ _ _ hi]
  rw [e2, Nat.add_sub_cancel]
  have e3 : (((l.set i (l.getD i 0 + 1)).set j (l.getD j 0 + 1)).set i (l.getD i 0)).getD j 0
      = l.getD j 0 + 1 := by
    rw [getD_set_ne _ _ _ _ _ hij, getD_set_self _ _ _ _ (by simpa using hj)]
  rw [e3, Nat.add_sub_cancel]
  have e4 : ((l.set i (l.getD i 0 + 1)).set j (l.getD j 0 + 1)).set i (l.getD i 0)
      = l.set j (l.getD j 0 + 1) := by
    rw [List.set_comm _ _ _ hij, List.set_set, List.set_comm _ _ _ (Ne.symm hij), set_getD_same]
  rw [e4, List.set_set, set_getD_same]

theorem student_turn_plays (env : Env) (id : Nat) (w : World)
    (hq : ∀ t, env.stop_flag t = false) (hgo : w.shared.game_over = 0)
    (hs : w.player_sems.getD id 0 ≠ 0)
    (hp : w.shared.current_player1 = id ∨ w.shared.current_player2 = id) :
    student_runs env id w =
      { shared := { w.shared with
            current_moves := w.shared.current_moves.set id (student_move env id w) },
        player_sems := w.player_sems.set id (w.player_sems.getD id 0 - 1),
        turn_complete := w.turn_complete + 1,
        stop_reads := w.stop_reads + 1,
        output := w.output ++ [Event.move_made id (student_move env id w)] } := by
  unfold student_runs student_turn
  rw [if_neg hs]
  simp [read_stop_flag, hq, hgo, hp, print, student_move]

theorem students_respond_open (env : Env) (i j : Nat) (w : World)
    (hq : ∀ t, env.stop_flag t = false) (hgo : w.shared.game_over = 0)
    (hij : i ≠ j) (hi : i < w.player_sems.length) (hj : j < w.player_sems.length) :
    students_respond env i j (open_match i j w) =
      { shared := { w.shared with
          current_moves := (w.shared.current_moves.set i
              ((env.rand_r i (w.shared.matches_played + 1).toNat : Int) % 3)).set j
              ((env.rand_r j (w.shared.matches_played + 1).toNat : Int) % 3),
          matches_played := w.shared.matches_played + 1,
          current_player1 := i,
          current_player2 := j },
        player_sems := w.player_sems,
        turn_complete := w.turn_complete + 2,
        stop_reads := w.stop_reads + 2,
        output := w.output ++
          [Event.match_start (w.shared.matches_played + 1) w.shared.total_matches i j,
           Event.move_made i ((env.rand_r i (w.shared.matches_played + 1).toNat : Int) % 3),
           Event.move_made j ((env.rand_r j (w.shared.matches_played + 1).toNat : Int) % 3)] } := by
  unfold students_respond
  have hsi : (open_match i j w).player_sems.getD i 0 ≠ 0 := by
    simp only [open_match, sem_post_player, print]
    rw [getD_set_ne _ _ _ _ _ (Ne.symm hij), getD_set_self _ _ _ _ hi]
    omega
  rw [student_turn_plays env i _ hq (by simpa [open_match, sem_post_player, print] using hgo) hsi
    (by simp [open_match, sem_post_player, print])]
  have hsj : (open_match i j w).player_sems.getD j 0 ≠ 0 := by
    simp only [open_match, sem_post_player, print]
    rw [getD_set_self _ _ _ _ (by simpa using hj)]
    omega
  rw [student_turn_plays env j _ hq (by simpa [open_match, sem_post_player, print] using hgo)
    (by
      simp only []
      rw [getD_set_ne _ _ _ _ _ hij]
      exact hsj)
    (by simp [open_match, sem_post_player, print])]
  simp only [open_match, sem_post_player, print, student_move]
  rw [post_post_take_take _ i j hij hi hj]
  simp [Nat.add_assoc]

theorem play_match_quiet (env : Env) (i j : Nat) (w : World)
    (hq : ∀ t, env.stop_flag t = false) (hgo : w.shared.game_over = 0)
    (hij : i ≠ j) (hi : i < w.player_sems.length) (hj : j < w.player_sems.length)
    (hmi : i < w.shared.current_moves.length) (hmj : j < w.shared.current_moves.length) :
    play_match env i j w = .ok (after_match env i j w) := by
  unfold play_match
  simp only [read_stop_flag, hq]
  rw [if_neg (by simp)]
  rw [students_respond_open env i j _ hq (by simpa using hgo) hij (by simpa using hi)
    (by simpa using hj)]
  unfold close_match
  rw [if_neg (by simp)]
  have m1 : ((w.shared.current_moves.set i
      ((env.rand_r i (w.shared.matches_played + 1).toNat : Int) % 3)).set j
      ((env.rand_r j (w.shared.matches_played + 1).toNat : Int) % 3)).getD i 0
      = (env.rand_r i (w.shared.matches_played + 1).toNat : Int) % 3 := by
    rw [getD_set_ne _ _ _ _ _ (Ne.symm hij), getD_set_self _ _ _ _ hmi]
  have m2 : ((w.shared.current_moves.set i
      ((env.rand_r i (w.shared.matches_played + 1).toNat : Int) % 3)).set j
      ((env.rand_r j (w.shared.matches_played + 1).toNat : Int) % 3)).getD j 0
      = (env.rand_r j (w.shared.matches_played + 1).toNat : Int) % 3 := by
    rw [getD_set_self _ _ _ _ (by simpa using hmj)]
  simp only [match_result, score_match, print, after_match, m1, m2]
  simp [Nat.add_assoc]

/-! ### The match loops of an undisturbed tournament -/

theorem foldlM_ok {α : Type} (step : World → α → Except Outcome World) (f : World → α → World)
    (P : World → Prop) (l : List α) (w : World) (hP : P w)
    (hstep : ∀ a ∈ l, ∀ w, P w → step w a = .ok (f w a) ∧ P (f w a)) :
    l.foldlM step w = .ok (l.foldl f w) ∧ P (l.foldl f w) := by
  induction l generalizing w with
  | nil => exact ⟨rfl, hP⟩
  | cons a l ih =>
    obtain ⟨h1, h2⟩ := hstep a (List.mem_cons_self a l) w hP
    rw [List.foldlM_cons, h1]
    exact ih (f w a) h2 (fun b hb => hstep b (List.mem_cons_of_mem a hb))

theorem after_match_inv (env : Env) (i j sems moves : Nat) (w : World)
    (h : loop_inv sems moves w) : loop_inv sems moves (after_match env i j w) := by
  obtain ⟨h1, h2, h3⟩ := h
  refine ⟨h1, h2, ?_⟩
  simp [after_match, h3]

theorem row_quiet (env : Env) (n i sems moves : Nat) (w : World)
    (hq : ∀ t, env.stop_flag t = false) (hs : n ≤ sems) (hm : n ≤ moves)
    (hw : loop_inv sems moves w) :
    (List.range' (i + 1) (n - (i + 1))).foldlM (fun w j => play_match env i j w) w
      = .ok (after_row env n i w) ∧ loop_inv sems moves (after_row env n i w) := by
  unfold after_row
  apply foldlM_ok (fun w j => play_match env i j w) (fun w j => after_match env i j w)
    (loop_inv sems moves) _ w hw
  intro j hj w1 hw1
  rw [List.mem_range'_1] at hj
  obtain ⟨h1, h2, h3⟩ := hw1
  refine ⟨?_, after_match_inv env i j sems moves w1 ⟨h1, h2, h3⟩⟩
  exact play_match_quiet env i j w1 hq h1 (by omega) (by omega) (by omega) (by omega) (by omega)

theorem match_loop_quiet (env : Env) (n sems moves : Nat) (w : World)
    (hq : ∀ t, env.stop_flag t = false) (hs : n ≤ sems) (hm : n ≤ moves)
    (hw : loop_inv sems moves w) :
    match_loop env n w = .ok (after_rows env n w) ∧ loop_inv sems moves (after_rows env n w) := by
  unfold match_loop after_rows
  apply foldlM_ok _ (fun w i => after_row env n i w) (loop_inv sems moves) _ w hw
  intro i _ w1 hw1
  exact row_quiet env n i sems moves w1 hq hs hm hw1

theorem foldl_proj {σ τ α : Type} (proj : σ → τ) (f : σ → α → σ) (g : τ → α → τ)
    (h : ∀ s a, proj (f s a) = g (proj s) a) (l : List α) (s : σ) :
    proj (l.foldl f s) = l.foldl g (proj s) := by
  induction l generalizing s with
  | nil => rfl
  | cons a l ih => simp only [List.foldl_cons, ih, h]

theorem foldl_append_flatMap {α β : Type} (F : α → List β) (l : List α) (r : List β) :
    l.foldl (fun r a => r ++ F a) r = r ++ l.flatMap F := by
  induction l generalizing r with
  | nil => simp
  | cons a l ih => simp [ih]

theorem flatMap_singleton_map {α β : Type} (f : α → β) (l : List α) :
    l.flatMap (fun a => [f a]) = l.map f := by
  induction l with
  | nil => rfl
  | cons a l ih => simp [ih]

theorem rounds_opened_append (a b : List Event) :
    rounds_opened (a ++ b) = rounds_opened a ++ rounds_opened b := by
  induction a with
  | nil => rfl
  | cons e es ih => cases e <;> simp [rounds_opened, ih]

theorem rounds_opened_after_match (env : Env) (i j : Nat) (w : World) :
    rounds_opened (after_match env i j w).output = rounds_opened w.output ++ [(i, j)] := by
  simp only [after_match, rounds_opened_append]
  simp only [result_event]
  split_ifs <;> simp [rounds_opened]

theorem rounds_opened_after_row (env : Env) (n i : Nat) (w : World) :
    rounds_opened (after_row env n i w).output =
      rounds_opened w.output ++ (List.range' (i + 1) (n - (i + 1))).map (fun j => (i, j)) := by
  unfold after_row
  refine (foldl_proj (fun w => rounds_opened w.output) (fun w j => after_match env i j w)
    (fun r j => r ++ [(i, j)]) (fun s j => rounds_opened_after_match env i j s) _ w).trans ?_
  rw [foldl_append_flatMap, flatMap_singleton_map]

theorem rounds_opened_after_rows (env : Env) (n : Nat) (w : World) :
    rounds_opened (after_rows env n w).output = rounds_opened w.output ++ schedule n := by
  unfold after_rows schedule
  refine (foldl_proj (fun w => rounds_opened w.output) (fun w i => after_row env n i w)
    (fun r i => r ++ (List.range' (i + 1) (n - (i + 1))).map (fun j => (i, j)))
    (fun s i => rounds_opened_after_row env n i s) _ w).trans ?_
  exact foldl_append_flatMap _ _ _

/-! ### The canonical schedule -/

theorem mem_schedule (n i j : Nat) : (i, j) ∈ schedule n ↔ i < j ∧ j < n := by
  simp only [schedule, List.mem_flatMap, List.mem_range, List.mem_map, List.mem_range'_1,
    Prod.mk.injEq]
  constructor
  · rintro ⟨a, ha, b, hb, rfl, rfl⟩
    omega
  · rintro ⟨h1, h2⟩
    exact ⟨i, by omega, j, by omega, rfl, rfl⟩

theorem sum_row_lengths (n m : Nat) (hm : m ≤ n) :
    2 * ((List.range m).map (fun i => n - (i + 1))).sum + m * m + m = 2 * n * m := by
  induction m with
  | zero => simp
  | succ m ih =>
    have ih1 := ih (by omega)
    rw [List.range_succ, List.map_append, List.sum_append]
    simp only [List.map_cons, List.map_nil, List.sum_cons, List.sum_nil, Nat.add_zero]
    obtain ⟨x, hx⟩ : ∃ x, n = x + (m + 1) := ⟨n - (m + 1), by omega⟩
    subst hx
    simp only [Nat.add_sub_cancel]
    nlinarith [ih1]

theorem length_schedule (n : Nat) : (schedule n).length = n * (n - 1) / 2 := by
  have h := sum_row_lengths n n le_rfl
  have hl : (schedule n).length = ((List.range n).map (fun i => n - (i + 1))).sum := by
    simp [schedule, List.length_flatMap, Function.comp_def]
  rw [hl]
  cases n with
  | zero => simp
  | succ k =>
    simp only [Nat.add_sub_cancel] at h ⊢
    have h2 : 2 * ((List.range (k + 1)).map (fun i => k + 1 - (i + 1))).sum = (k + 1) * k := by
      nlinarith [h]
    omega

theorem schedule_sorted (n : Nat) :
    (schedule n).Pairwise (fun p q => p.1 < q.1 ∨ (p.1 = q.1 ∧ p.2 < q.2)) := by
  unfold schedule
  rw [List.pairwise_flatMap]
  constructor
  · intro i _
    rw [List.pairwise_map]
    exact (List.pairwise_lt_range' (i + 1) (n - (i + 1))).imp (fun h => Or.inr ⟨rfl, h⟩)
  · refine (List.pairwise_lt_range n).imp ?_
    intro a b hab x hx y hy
    simp only [List.mem_map] at hx hy
    obtain ⟨_, _, rfl⟩ := hx
    obtain ⟨_, _, rfl⟩ := hy
    exact Or.inl hab

theorem schedule_nodup (n : Nat) : (schedule n).Nodup := by
  refine (schedule_sorted n).imp ?_
  rintro ⟨a1, a2⟩ ⟨b1, b2⟩ h heq
  simp only [Prod.mk.injEq] at heq
  obtain ⟨rfl, rfl⟩ := heq
  omega

theorem foldl_flatMap_nested {α β σ : Type} (F : α → List β) (f : σ → β → σ) (l : List α) (s : σ) :
    (l.flatMap F).foldl f s = l.foldl (fun s a => (F a).foldl f s) s := by
  induction l generalizing s with
  | nil => rfl
  | cons a l ih => simp [List.flatMap_cons, List.foldl_append, ih]

theorem after_rows_eq_fold (env : Env) (n : Nat) (w : World) :
    after_rows env n w = (schedule n).foldl (fun w p => after_match env p.1 p.2 w) w := by
  unfold after_rows schedule after_row
  rw [foldl_flatMap_nested]
  simp only [List.foldl_map]

theorem foldl_const {α τ : Type} (l : List α) (x : τ) : l.foldl (fun r _ => r) x = x := by
  induction l with
  | nil => rfl
  | cons a l ih => simp [ih]

theorem foldl_succ {α : Type} (l : List α) (x : Int) :
    l.foldl (fun r _ => r + 1) x = x + l.length := by
  induction l generalizing x with
  | nil => simp
  | cons a l ih => simp [ih]; ring

theorem after_rows_frame (env : Env) (n : Nat) (w : World) :
    (after_rows env n w).shared.total_matches = w.shared.total_matches ∧
    (after_rows env n w).shared.game_over = w.shared.game_over ∧
    (after_rows env n w).player_sems = w.player_sems ∧
    (after_rows env n w).turn_complete = w.turn_complete ∧
    (after_rows env n w).shared.scores.length = w.shared.scores.length := by
  rw [after_rows_eq_fold]
  refine ⟨?_, ?_, ?_, ?_, ?_⟩
  · exact (foldl_proj (fun (w : World) => w.shared.total_matches) (fun (w : World) (p : Nat × Nat) => after_match env p.1 p.2 w)
      (fun r _ => r) (fun s p => rfl) _ w).trans (foldl_const _ _)
  · exact (foldl_proj (fun (w : World) => w.shared.game_over) (fun (w : World) (p : Nat × Nat) => after_match env p.1 p.2 w)
      (fun r _ => r) (fun s p => rfl) _ w).trans (foldl_const _ _)
  · exact (foldl_proj (fun (w : World) => w.player_sems) (fun (w : World) (p : Nat × Nat) => after_match env p.1 p.2 w)
      (fun r _ => r) (fun s p => rfl) _ w).trans (foldl_const _ _)
  · exact (foldl_proj (fun (w : World) => w.turn_complete) (fun (w : World) (p : Nat × Nat) => after_match env p.1 p.2 w)
      (fun r _ => r) (fun s p => rfl) _ w).trans (foldl_const _ _)
  · exact (foldl_proj (fun (w : World) => w.shared.scores.length) (fun (w : World) (p : Nat × Nat) => after_match env p.1 p.2 w)
      (fun r _ => r) (fun s p => update_scores_length _ _ _ _) _ w).trans (foldl_const _ _)

theorem after_rows_matches_played (env : Env) (n : Nat) (w : World) :
    (after_rows env n w).shared.matches_played
      = w.shared.matches_played + ((n * (n - 1) / 2 : Nat) : Int) := by
  rw [after_rows_eq_fold, ← length_schedule]
  exact (foldl_proj (fun (w : World) => w.shared.matches_played) (fun (w : World) (p : Nat × Nat) => after_match env p.1 p.2 w)
      (fun r _ => r + 1) (fun s p => rfl) _ w).trans (foldl_succ _ _)

theorem total_matches_eq (n : Nat) :
    Int.tdiv ((n : Int) * ((n : Int) - 1)) 2 = ((n * (n - 1) / 2 : Nat) : Int) := by
  cases n with
  | zero => decide
  | succ k =>
    have h : ((k + 1 : Nat) : Int) * (((k + 1 : Nat) : Int) - 1) = (((k + 1) * (k + 1 - 1) : Nat) : Int) := by
      push_cast; ring
    rw [h, Int.tdiv_eq_ediv (Int.ofNat_nonneg _) (by decide)]
    norm_cast

/-- The registration wait returns when some poll finds all students registered
and no interruption is seen; it changes only `registered_players` and the count of
`stop_flag` reads. -/
theorem wait_registration_quiet (env : Env) (n : Nat) (hq : ∀ t, env.stop_flag t = false)
    (k : Nat) : ∀ (poll : Nat) (registered : Int) (w : World) (fuel : Nat),
    (n : Int) ≤ env.registered (poll + k) → k < fuel →
    ∃ r t, wait_registration env n fuel poll registered w =
      .ok { w with shared := { w.shared with registered_players := r }, stop_reads := t } := by
  induction k with
  | zero =>
    intro poll registered w fuel hreg hfuel
    unfold wait_registration
    split_ifs with h
    · obtain ⟨f, rfl⟩ : ∃ f, fuel = f + 1 := ⟨fuel - 1, by omega⟩
      simp only [read_stop_flag, hq]
      rw [if_neg (by simp)]
      unfold wait_registration
      rw [if_neg (by simpa using hreg)]
      exact ⟨_, _, rfl⟩
    · exact ⟨w.shared.registered_players, w.stop_reads, rfl⟩
  | succ k ih =>
    intro poll registered w fuel hreg hfuel
    unfold wait_registration
    split_ifs with h
    · obtain ⟨f, rfl⟩ : ∃ f, fuel = f + 1 := ⟨fuel - 1, by omega⟩
      simp only [read_stop_flag, hq]
      rw [if_neg (by simp)]
      obtain ⟨r, t, hrt⟩ := ih (poll + 1) (env.registered poll)
        { w with shared := { w.shared with registered_players := env.registered poll },
                 stop_reads := w.stop_reads + 1 } f
        (by rw [show poll + 1 + k = poll + (k + 1) by omega]; exact hreg) (by omega)
      exact ⟨r, t, hrt⟩
    · exact ⟨w.shared.registered_players, w.stop_reads, rfl⟩

/-! ### The undisturbed run of `run_tournament` -/

theorem wake_all_frame (l : List Nat) (w : World) :
    (l.foldl (fun w i => sem_post_player i w) w).shared = w.shared ∧
    (l.foldl (fun w i => sem_post_player i w) w).output = w.output ∧
    (l.foldl (fun w i => sem_post_player i w) w).turn_complete = w.turn_complete := by
  refine ⟨?_, ?_, ?_⟩
  · exact (foldl_proj (fun (w : World) => w.shared) (fun (w : World) (i : Nat) => sem_post_player i w)
      (fun r _ => r) (fun s p => rfl) _ w).trans (foldl_const _ _)
  · exact (foldl_proj (fun (w : World) => w.output) (fun (w : World) (i : Nat) => sem_post_player i w)
      (fun r _ => r) (fun s p => rfl) _ w).trans (foldl_const _ _)
  · exact (foldl_proj (fun (w : World) => w.turn_complete)
      (fun (w : World) (i : Nat) => sem_post_player i w)
      (fun r _ => r) (fun s p => rfl) _ w).trans (foldl_const _ _)

theorem finish_tournament_frame (n : Nat) (w : World) :
    (finish_tournament n w).shared = { w.shared with game_over := 1 } ∧
    (finish_tournament n w).output = w.output ∧
    (finish_tournament n w).turn_complete = w.turn_complete := by
  unfold finish_tournament
  obtain ⟨h1, h2, h3⟩ := wake_all_frame (List.range n)
    { w with shared := { w.shared with game_over := 1 } }
  exact ⟨h1, h2, h3⟩

/-- The undisturbed run of `run_tournament` from the state `main` sets up, in
closed form: it returns, and the state it returns is the state after all matches
with `game_over` set and every student woken. -/
theorem run_tournament_quiet (env : Env) (n k fuel : Nat) (hn : n ≤ MAX_PLAYERS)
    (hq : ∀ t, env.stop_flag t = false) (hreg : (n : Int) ≤ env.registered k)
    (hfuel : k < fuel) :
    ∃ r t, run_tournament env n fuel (initial_world n) =
      .returned (finish_tournament n (after_rows env n (loops_start n r t))) := by
  obtain ⟨r, t, hrt⟩ := wait_registration_quiet env n hq k 0 0 (initial_world n) fuel
    (by simpa using hreg) hfuel
  refine ⟨r, t, ?_⟩
  unfold run_tournament
  rw [hrt]
  simp only [print, initial_world, List.nil_append, List.cons_append]
  have hloop := (match_loop_quiet env n n MAX_PLAYERS (loops_start n r t)
    hq le_rfl hn ⟨rfl, by simp [loops_start], by simp [loops_start, initial_shared]⟩).1
  unfold loops_start at hloop
  rw [hloop]
  rfl

/-- C4: for `2 ≤ n ≤ 10`, when no cancellation is ever seen and some poll finds all
students registered, `run_tournament` returns, and the matches it opened are exactly
the pairs `(i, j)` with `i < j < n`, each once, in the canonical order (increasing
`i`, and increasing `j` for equal `i`), `n * (n - 1) / 2` of them; at the end
`matches_played = total_matches = n * (n - 1) / 2`. -/
theorem run_tournament_schedule (env : Env) (n k fuel : Nat) (hn2 : 2 ≤ n)
    (hn10 : n ≤ MAX_PLAYERS) (hq : ∀ t, env.stop_flag t = false)
    (hreg : (n : Int) ≤ env.registered k) (hfuel : k < fuel) :
    ∃ w, run_tournament env n fuel (initial_world n) = .returned w ∧
      rounds_opened w.output = schedule n ∧
      (rounds_opened w.output).length = n * (n - 1) / 2 ∧
      (∀ i j, (i, j) ∈ rounds_opened w.output ↔ i < j ∧ j < n) ∧
      (rounds_opened w.output).Nodup ∧
      (rounds_opened w.output).Pairwise (fun p q => p.1 < q.1 ∨ (p.1 = q.1 ∧ p.2 < q.2)) ∧
      w.shared.matches_played = ((n * (n - 1) / 2 : Nat) : Int) ∧
      w.shared.total_matches = ((n * (n - 1) / 2 : Nat) : Int) := by
  have _ := hn2
  obtain ⟨r, t, hrt⟩ := run_tournament_quiet env n k fuel hn10 hq hreg hfuel
  refine ⟨_, hrt, ?_⟩
  have hout : rounds_opened
      (finish_tournament n (after_rows env n (loops_start n r t))).output = schedule n := by
    rw [(finish_tournament_frame n _).2.1, rounds_opened_after_rows]
    simp [loops_start, rounds_opened]
  have hsh := (finish_tournament_frame n (after_rows env n (loops_start n r t))).1
  refine ⟨hout, ?_, ?_, ?_, ?_, ?_, ?_⟩
  · rw [hout]; exact length_schedule n
  · intro i j; rw [hout]; exact mem_schedule n i j
  · rw [hout]; exact schedule_nodup n
  · rw [hout]; exact schedule_sorted n
  · rw [hsh]
    simp only []
    rw [after_rows_matches_played]
    simp [loops_start]
  · rw [hsh]
    simp only []
    rw [(after_rows_frame env n _).1]
    simp only [loops_start]
    exact total_matches_eq n

/-- Witness of C4 for three students that are all registered at the first poll. -/
theorem run_tournament_schedule_witness :
    ∃ w, run_tournament ⟨fun _ => false, fun _ => 3, fun _ _ => 0⟩ 3 1 (initial_world 3)
        = .returned w ∧
      rounds_opened w.output = [(0, 1), (0, 2), (1, 2)] ∧
      w.shared.matches_played = 3 ∧ w.shared.total_matches = 3 := by
  obtain ⟨w, h1, h2, _, _, _, _, h3, h4⟩ :=
    run_tournament_schedule ⟨fun _ => false, fun _ => 3, fun _ _ => 0⟩ 3 0 1
      (by decide) (by decide) (fun _ => rfl) (by decide) (by decide)
  exact ⟨w, h1, by rw [h2]; decide, by rw [h3]; decide, by rw [h4]; decide⟩

/-! ### A tournament in which all moves are equal -/

theorem results_announced_append (a b : List Event) :
    results_announced (a ++ b) = results_announced a ++ results_announced b := by
  induction a with
  | nil => rfl
  | cons e es ih => cases e <;> simp [results_announced, ih]

theorem determine_winner_self (c : Int) : determine_winner c c = 0 := by
  simp [determine_winner]

theorem after_match_same (env : Env) (c : Int) (hsame : ∀ id m, (env.rand_r id m : Int) % 3 = c)
    (i j : Nat) (w : World) :
    (after_match env i j w).shared.scores = update_scores 0 i j w.shared.scores ∧
    results_announced (after_match env i j w).output
      = results_announced w.output ++ [Event.draw] := by
  constructor
  · simp only [after_match, hsame, determine_winner_self]
  · simp only [after_match, hsame, determine_winner_self, results_announced_append]
    simp [results_announced, result_event]

theorem foldl_append_const {α β : Type} (x : β) (l : List α) (r : List β) :
    l.foldl (fun r _ => r ++ [x]) r = r ++ List.replicate l.length x := by
  induction l generalizing r with
  | nil => simp
  | cons a l ih => simp [ih, List.replicate_succ]

theorem after_rows_same (env : Env) (c : Int) (hsame : ∀ id m, (env.rand_r id m : Int) % 3 = c)
    (n : Nat) (w : World) :
    (after_rows env n w).shared.scores
      = (schedule n).foldl (fun sc p => update_scores 0 p.1 p.2 sc) w.shared.scores ∧
    results_announced (after_rows env n w).output
      = results_announced w.output ++ List.replicate (n * (n - 1) / 2) Event.draw := by
  rw [after_rows_eq_fold, ← length_schedule]
  constructor
  · exact foldl_proj (fun (w : World) => w.shared.scores)
      (fun (w : World) (p : Nat × Nat) => after_match env p.1 p.2 w)
      (fun sc p => update_scores 0 p.1 p.2 sc)
      (fun s p => (after_match_same env c hsame p.1 p.2 s).1) _ w
  · exact (foldl_proj (fun (w : World) => results_announced w.output)
      (fun (w : World) (p : Nat × Nat) => after_match env p.1 p.2 w)
      (fun r _ => r ++ [Event.draw])
      (fun s p => (after_match_same env c hsame p.1 p.2 s).2) _ w).trans
      (foldl_append_const _ _ _)

theorem all_draw_scores (n : Nat) (hn2 : 2 ≤ n) (hn10 : n ≤ 10) :
    ∀ k, k < n → ((schedule n).foldl (fun sc p => update_scores 0 p.1 p.2 sc)
      (List.replicate 10 0)).getD k 0 = ((n - 1 : Nat) : Int) := by
  interval_cases n <;> decide

theorem schedule_participation (n : Nat) (hn2 : 2 ≤ n) (hn10 : n ≤ 10) :
    ∀ k, k < n → (schedule n).countP (fun p => p.1 = k ∨ p.2 = k) = n - 1 := by
  interval_cases n <;> decide

/-- C8: for `2 ≤ n ≤ 10`, in an uncancelled tournament in which every move drawn is
the same value `c`, `run_tournament` returns after `n * (n - 1) / 2` matches, every
announced result is a draw, every student takes part in exactly `n - 1` matches and
ends with the score `n - 1`. -/
theorem all_equal_moves_all_draws (env : Env) (n k fuel : Nat) (c : Int) (hn2 : 2 ≤ n)
    (hn10 : n ≤ MAX_PLAYERS) (hq : ∀ t, env.stop_flag t = false)
    (hreg : (n : Int) ≤ env.registered k) (hfuel : k < fuel)
    (hsame : ∀ id m, (env.rand_r id m : Int) % 3 = c) :
    ∃ w, run_tournament env n fuel (initial_world n) = .returned w ∧
      (rounds_opened w.output).length = n * (n - 1) / 2 ∧
      results_announced w.output = List.replicate (n * (n - 1) / 2) Event.draw ∧
      (∀ p, p < n → (rounds_opened w.output).countP (fun r => r.1 = p ∨ r.2 = p) = n - 1) ∧
      (∀ p, p < n → w.shared.scores.getD p 0 = ((n - 1 : Nat) : Int)) := by
  obtain ⟨r, t, hrt⟩ := run_tournament_quiet env n k fuel hn10 hq hreg hfuel
  refine ⟨_, hrt, ?_⟩
  have hout : rounds_opened
      (finish_tournament n (after_rows env n (loops_start n r t))).output = schedule n := by
    rw [(finish_tournament_frame n _).2.1, rounds_opened_after_rows]
    simp [loops_start, rounds_opened]
  refine ⟨?_, ?_, ?_, ?_⟩
  · rw [hout]; exact length_schedule n
  · rw [(finish_tournament_frame n _).2.1, (after_rows_same env c hsame n _).2]
    simp [loops_start, results_announced]
  · intro p hp
    rw [hout]
    exact schedule_participation n hn2 hn10 p hp
  · intro p hp
    rw [(finish_tournament_frame n _).1]
    simp only []
    rw [(after_rows_same env c hsame n _).1]
    exact all_draw_scores n hn2 hn10 p hp

/-- Witness of C8 for three students that always draw Rock: three matches, three
draws, final scores [2, 2, 2]. -/
theorem all_equal_moves_all_draws_witness :
    ∃ w, run_tournament ⟨fun _ => false, fun _ => 3, fun _ _ => 0⟩ 3 1 (initial_world 3)
        = .returned w ∧
      (rounds_opened w.output).length = 3 ∧
      results_announced w.output = [Event.draw, Event.draw, Event.draw] ∧
      (∀ p, p < 3 → w.shared.scores.getD p 0 = 2) := by
  obtain ⟨w, h1, h2, h3, _, h5⟩ :=
    all_equal_moves_all_draws ⟨fun _ => false, fun _ => 3, fun _ _ => 0⟩ 3 0 1 0
      (by decide) (by decide) (fun _ => rfl) (by decide) (by decide) (fun _ _ => rfl)
  exact ⟨w, h1, h2, h3, h5⟩

/-- Counterexample to the instance stated in C8: with three students that always
draw Rock the tournament has three matches, all draws, and ends with the scores
[2, 2, 2], not [3, 3, 3]. -/
theorem all_equal_moves_three_students :
    ∃ w, run_tournament ⟨fun _ => false, fun _ => 3, fun _ _ => 0⟩ 3 1 (initial_world 3)
        = .returned w ∧
      rounds_opened w.output = [(0, 1), (0, 2), (1, 2)] ∧
      results_announced w.output = [Event.draw, Event.draw, Event.draw] ∧
      w.shared.scores.take 3 = [2, 2, 2] ∧
      w.shared.scores.take 3 ≠ [3, 3, 3] :=
  ⟨_, rfl, by decide, by decide, by decide, by decide⟩

/-! ### The sort of the final standings -/

theorem swap_results_length (i j : Nat) (r : List PlayerResult) :
    (swap_results i j r).length = r.length := by
  simp [swap_results]

theorem swap_results_left (i j : Nat) (r : List PlayerResult) (hij : i ≠ j)
    (hi : i < r.length) :
    (swap_results i j r).getD i no_result = r.getD j no_result := by
  unfold swap_results
  rw [getD_set_ne _ _ _ _ _ (Ne.symm hij), getD_set_self _ _ _ _ hi]

theorem swap_results_right (i j : Nat) (r : List PlayerResult) (hj : j < r.length) :
    (swap_results i j r).getD j no_result = r.getD i no_result := by
  unfold swap_results
  rw [getD_set_self _ _ _ _ (by simpa using hj)]

theorem swap_results_other (i j k : Nat) (r : List PlayerResult) (hi : k ≠ i) (hj : k ≠ j) :
    (swap_results i j r).getD k no_result = r.getD k no_result := by
  unfold swap_results
  rw [getD_set_ne _ _ _ _ _ (Ne.symm hj), getD_set_ne _ _ _ _ _ (Ne.symm hi)]

theorem swap_results_perm (i j : Nat) (r : List PlayerResult) (hij : i ≠ j)
    (hi : i < r.length) (hj : j < r.length) : (swap_results i j r).Perm r := by
  rw [List.perm_iff_count]
  intro b
  unfold swap_results
  have hj' : j < (r.set i (r.getD j no_result)).length := by simpa using hj
  rw [List.count_set _ _ _ _ hj', List.count_set _ _ _ _ hi]
  simp only [List.getElem_set_ne hij, List.getD_eq_getElem _ _ hi, List.getD_eq_getElem _ _ hj]
  have h1 := List.boole_getElem_le_countP (fun x => x == b) r i hi
  have h2 := List.boole_getElem_le_countP (fun x => x == b) r j hj
  rw [← List.count_eq_countP] at h1 h2
  split_ifs at h1 h2 ⊢ <;> omega

theorem sort_step_length (i j : Nat) (r : List PlayerResult) :
    (sort_step i r j).length = r.length := by
  unfold sort_step
  split_ifs
  · exact swap_results_length i j r
  · rfl

/-- The effect of one inner pass, started at `j` with `m` cells still to visit. -/
theorem sort_pass_from (n i : Nat) : ∀ (m j : Nat) (r : List PlayerResult),
    i < j → j + m = n → r.length = n →
    (∀ k, i < k → k < j → (r.getD k no_result).score ≤ (r.getD i no_result).score) →
    ((List.range' j m).foldl (sort_step i) r).length = n ∧
    ((List.range' j m).foldl (sort_step i) r).Perm r ∧
    (∀ k, i < k → k < n →
      (((List.range' j m).foldl (sort_step i) r).getD k no_result).score
        ≤ (((List.range' j m).foldl (sort_step i) r).getD i no_result).score) ∧
    (∀ k, k < i →
      ((List.range' j m).foldl (sort_step i) r).getD k no_result = r.getD k no_result) ∧
    (∀ k, i ≤ k → k < n → ∃ k', i ≤ k' ∧ k' < n ∧
      ((List.range' j m).foldl (sort_step i) r).getD k no_result = r.getD k' no_result) := by
  intro m
  induction m with
  | zero =>
    intro j r hij hjm hlen hinv
    refine ⟨hlen, List.Perm.refl r, fun k h1 h2 => hinv k h1 (by omega), fun k _ => rfl,
      fun k h1 h2 => ⟨k, h1, h2, rfl⟩⟩
  | succ m ih =>
    intro j r hij hjm hlen hinv
    simp only [List.range'_succ, List.foldl_cons]
    have hjn : j < n := by omega
    have hin : i < n := by omega
    have hne : i ≠ j := Nat.ne_of_lt hij
    have hlen1 : (sort_step i r j).length = n := by rw [sort_step_length, hlen]
    have hinv1 : ∀ k, i < k → k < j + 1 →
        ((sort_step i r j).getD k no_result).score
          ≤ ((sort_step i r j).getD i no_result).score := by
      intro k h1 h2
      unfold sort_step
      split_ifs with hgt
      · rw [swap_results_left i j r hne (by omega)]
        by_cases hkj : k = j
        · subst hkj
          rw [swap_results_right i k r (by omega)]
          omega
        · rw [swap_results_other i j k r (by omega) hkj]
          have := hinv k h1 (by omega)
          omega
      · by_cases hkj : k = j
        · subst hkj
          omega
        · exact hinv k h1 (by omega)
    have hperm1 : (sort_step i r j).Perm r := by
      unfold sort_step
      split_ifs
      · exact swap_results_perm i j r hne (by omega) (by omega)
      · exact List.Perm.refl r
    have hpre1 : ∀ k, k < i → (sort_step i r j).getD k no_result = r.getD k no_result := by
      intro k hk
      unfold sort_step
      split_ifs
      · exact swap_results_other i j k r (by omega) (by omega)
      · rfl
    have hsuf1 : ∀ k, i ≤ k → k < n → ∃ k', i ≤ k' ∧ k' < n ∧
        (sort_step i r j).getD k no_result = r.getD k' no_result := by
      intro k h1 h2
      unfold sort_step
      split_ifs
      · by_cases hki : k = i
        · subst hki
          exact ⟨j, by omega, hjn, swap_results_left k j r hne (by omega)⟩
        · by_cases hkj : k = j
          · subst hkj
            exact ⟨i, le_rfl, hin, swap_results_right i k r (by omega)⟩
          · exact ⟨k, h1, h2, swap_results_other i j k r hki hkj⟩
      · exact ⟨k, h1, h2, rfl⟩
    obtain ⟨g1, g2, g3, g4, g5⟩ := ih (j + 1) (sort_step i r j) (by omega) (by omega) hlen1 hinv1
    refine ⟨g1, g2.trans hperm1, g3, ?_, ?_⟩
    · intro k hk
      rw [g4 k hk, hpre1 k hk]
    · intro k h1 h2
      obtain ⟨k1, a1, a2, a3⟩ := g5 k h1 h2
      obtain ⟨k2, b1, b2, b3⟩ := hsuf1 k1 a1 a2
      exact ⟨k2, b1, b2, a3.trans b3⟩

/-- The state of the array after the first `m` passes of the outer loop. -/
theorem sort_passes (n : Nat) (r0 : List PlayerResult) (hlen : r0.length = n) :
    ∀ m, m + 1 ≤ n ∨ m = 0 →
    ((List.range m).foldl (fun r i => sort_pass n i r) r0).length = n ∧
    ((List.range m).foldl (fun r i => sort_pass n i r) r0).Perm r0 ∧
    (∀ a k, a < m → a < k → k < n →
      (((List.range m).foldl (fun r i => sort_pass n i r) r0).getD k no_result).score
        ≤ (((List.range m).foldl (fun r i => sort_pass n i r) r0).getD a no_result).score) := by
  intro m
  induction m with
  | zero =>
    intro _
    simp only [List.range_zero, List.foldl_nil]
    exact ⟨hlen, List.Perm.refl r0, fun a k h => absurd h (Nat.not_lt_zero a)⟩
  | succ m ih =>
    intro hm
    have hm1 : m + 2 ≤ n := by omega
    obtain ⟨h1, h2, h3⟩ := ih (Or.inl (by omega))
    rw [List.range_succ, List.foldl_append]
    simp only [List.foldl_cons, List.foldl_nil]
    generalize (List.range m).foldl (fun r i => sort_pass n i r) r0 = R at h1 h2 h3 ⊢
    unfold sort_pass
    obtain ⟨g1, g2, g3, g4, g5⟩ := sort_pass_from n m (n - (m + 1)) (m + 1) R
      (by omega) (by omega) h1 (fun k a b => by omega)
    refine ⟨g1, g2.trans h2, ?_⟩
    intro a k ha hak hkn
    by_cases ham : a = m
    · subst ham
      exact g3 k hak hkn
    · have ha' : a < m := by omega
      rw [g4 a ha']
      by_cases hkm : k < m
      · rw [g4 k hkm]
        exact h3 a k ha' hak hkn
      · obtain ⟨k', c1, c2, c3⟩ := g5 k (by omega) hkn
        rw [c3]
        exact h3 a k' ha' (by omega) c2

/-- C10: for every `n ≤ MAX_PLAYERS` and every score array, the exchange sort of
`print_results` leaves in `results[0..n-1]` a permutation of the pairs
`(i, scores[i])`, `i = 0 .. n-1` (every student once, with its own score), in
non-increasing order of the scores. -/
theorem final_standings_sorted_perm (n : Nat) (scores : List Int) (hn : n ≤ MAX_PLAYERS) :
    (final_standings n scores).length = n ∧
    (final_standings n scores).Perm (collect_results n scores) ∧
    (final_standings n scores).Pairwise (fun a b => b.score ≤ a.score) ∧
    ((final_standings n scores).map (fun r => r.id)).Perm
      ((List.range n).map (fun (i : Nat) => (i : Int))) ∧
    (∀ r ∈ final_standings n scores, ∃ i, i < n ∧ r.id = (i : Int) ∧
      r.score = scores.getD i 0) := by
  have _ := hn
  have hlen : (collect_results n scores).length = n := by simp [collect_results]
  obtain ⟨h1, h2, h3⟩ := sort_passes n (collect_results n scores) hlen (n - 1) (by omega)
  have hperm : (final_standings n scores).Perm (collect_results n scores) := h2
  refine ⟨h1, hperm, ?_, ?_, ?_⟩
  · rw [List.pairwise_iff_getElem]
    intro a b ha hb hab
    have hbn : b < n := by
      have : (final_standings n scores).length = n := h1
      omega
    have key : ((final_standings n scores).getD b no_result).score
        ≤ ((final_standings n scores).getD a no_result).score := h3 a b (by omega) hab hbn
    rw [List.getD_eq_getElem _ _ ha, List.getD_eq_getElem _ _ hb] at key
    exact key
  · have := hperm.map (fun r => r.id)
    simpa [collect_results, Function.comp_def] using this
  · intro r hr
    have hr' : r ∈ collect_results n scores := hperm.mem_iff.mp hr
    simp only [collect_results, List.mem_map, List.mem_range] at hr'
    obtain ⟨i, hi, rfl⟩ := hr'
    exact ⟨i, hi, rfl, rfl⟩

/-- Witness of C10: five students with the scores 3, 1, 4, 1, 5. -/
theorem final_standings_sorted_perm_witness :
    5 ≤ MAX_PLAYERS ∧
    (final_standings 5 [3, 1, 4, 1, 5, 0, 0, 0, 0, 0]).map (fun r => (r.id, r.score))
      = [(4, 5), (2, 4), (0, 3), (3, 1), (1, 1)] ∧
    (final_standings 5 [3, 1, 4, 1, 5, 0, 0, 0, 0, 0]).Pairwise (fun a b => b.score ≤ a.score) :=
  ⟨by decide, by decide,
    (final_standings_sorted_perm 5 [3, 1, 4, 1, 5, 0, 0, 0, 0, 0] (by decide)).2.2.1⟩

/-! ### The start-up of `main` -/

theorem parse_args_range_aux (atoi : String → Int) : ∀ (k : Nat) (args : List String) (c c' : Locals),
    args.length ≤ k → (2 ≤ c.n ∧ c.n ≤ (MAX_PLAYERS : Int)) → parse_args atoi args c = .ok c' →
      2 ≤ c'.n ∧ c'.n ≤ (MAX_PLAYERS : Int) := by
  intro k
  induction k with
  | zero =>
    intro args c c' hk hc h
    have : args = [] := List.length_eq_zero.mp (by omega)
    subst this
    simp only [parse_args, Except.ok.injEq] at h
    subst h; exact hc
  | succ k ih =>
    intro args c c' hk hc h
    match args, hk, h with
    | [], _, h =>
      simp only [parse_args, Except.ok.injEq] at h
      subst h; exact hc
    | [a], _, h =>
      simp only [parse_args] at h
      split_ifs at h
      simp only [Except.ok.injEq] at h
      subst h; exact hc
    | a :: v :: rest, hk, h =>
      simp only [List.length_cons] at hk
      simp only [parse_args] at h
      split_ifs at h with h1 h2 h3 h4 h5
      · exact ih rest { c with n := atoi v } c' (by omega) (by simp only []; omega) h
      · exact ih rest { c with output_file := some v } c' (by omega) hc h
      · exact ih rest { c with input_file := some v, use_input_file := true } c' (by omega) hc h
      · exact ih (v :: rest) c c' (by simp only [List.length_cons]; omega) hc h

theorem parse_args_code_aux (atoi : String → Int) : ∀ (k : Nat) (args : List String) (c : Locals)
    (code : Int), args.length ≤ k → parse_args atoi args c = .error code →
      code = 1 ∨ (code = 0 ∧ ("-h" ∈ args ∨ "--help" ∈ args)) := by
  intro k
  induction k with
  | zero =>
    intro args c code hk h
    have : args = [] := List.length_eq_zero.mp (by omega)
    subst this
    simp [parse_args] at h
  | succ k ih =>
    intro args c code hk h
    match args, hk, h with
    | [], _, h => simp [parse_args] at h
    | [a], _, h =>
      simp only [parse_args] at h
      split_ifs at h with hh
      simp only [Except.error.injEq] at h
      right
      refine ⟨h.symm, ?_⟩
      rcases hh with hh | hh <;> simp [hh]
    | a :: v :: rest, hk, h =>
      simp only [List.length_cons] at hk
      simp only [parse_args] at h
      split_ifs at h with h1 h2 h3 h4 h5
      · left; simp only [Except.error.injEq] at h; exact h.symm
      · rcases ih rest _ code (by omega) h with g | ⟨g1, g2⟩
        · exact Or.inl g
        · right; refine ⟨g1, ?_⟩
          rcases g2 with g2 | g2
          · left; exact List.mem_cons_of_mem _ (List.mem_cons_of_mem _ g2)
          · right; exact List.mem_cons_of_mem _ (List.mem_cons_of_mem _ g2)
      · rcases ih rest _ code (by omega) h with g | ⟨g1, g2⟩
        · exact Or.inl g
        · right; refine ⟨g1, ?_⟩
          rcases g2 with g2 | g2
          · left; exact List.mem_cons_of_mem _ (List.mem_cons_of_mem _ g2)
          · right; exact List.mem_cons_of_mem _ (List.mem_cons_of_mem _ g2)
      · rcases ih rest _ code (by omega) h with g | ⟨g1, g2⟩
        · exact Or.inl g
        · right; refine ⟨g1, ?_⟩
          rcases g2 with g2 | g2
          · left; exact List.mem_cons_of_mem _ (List.mem_cons_of_mem _ g2)
          · right; exact List.mem_cons_of_mem _ (List.mem_cons_of_mem _ g2)
      · simp only [Except.error.injEq] at h
        right
        refine ⟨h.symm, ?_⟩
        rcases h5 with hh | hh <;> simp [hh]
      · rcases ih (v :: rest) _ code (by simp only [List.length_cons]; omega) h with g | ⟨g1, g2⟩
        · exact Or.inl g
        · right; refine ⟨g1, ?_⟩
          rcases g2 with g2 | g2
          · left; exact List.mem_cons_of_mem _ g2
          · right; exact List.mem_cons_of_mem _ g2

theorem parse_args_scanned (atoi : String → Int) (pre : List String) (c c' : Locals)
    (h : Scanned atoi pre c c') (rest : List String) :
    parse_args atoi (pre ++ rest) c = parse_args atoi rest c' := by
  induction h with
  | done c => rfl
  | roster v pre c c' hv _ ih =>
    simp only [List.cons_append, parse_args, if_true]
    rw [if_neg hv]
    exact ih
  | output v pre c c' _ ih =>
    simp only [List.cons_append, parse_args]
    simpa using ih
  | input v pre c c' _ ih =>
    simp only [List.cons_append, parse_args]
    simpa using ih
  | other a pre c c' ha hs ih =>
    obtain ⟨h1, h2, h3, h4, h5⟩ := ha
    cases hpr : pre ++ rest with
    | nil =>
      have hp : pre = [] := (List.append_eq_nil.mp hpr).1
      have hr : rest = [] := (List.append_eq_nil.mp hpr).2
      subst hp; subst hr
      cases hs
      simp [parse_args, h4, h5]
    | cons v t =>
      simp only [List.cons_append, hpr, parse_args]
      rw [if_neg h1, if_neg h2, if_neg h3, if_neg (by simp [h4, h5])]
      rw [← hpr]
      exact ih

theorem scanned_input_file (atoi : String → Int) (post : List String) (c c' : Locals)
    (h : Scanned atoi post c c') (hi : "-i" ∉ post) :
    c'.input_file = c.input_file ∧ c'.use_input_file = c.use_input_file := by
  induction h with
  | done c => exact ⟨rfl, rfl⟩
  | roster v pre c c' hv _ ih =>
    exact ih (fun hm => hi (List.mem_cons_of_mem _ (List.mem_cons_of_mem _ hm)))
  | output v pre c c' _ ih =>
    exact ih (fun hm => hi (List.mem_cons_of_mem _ (List.mem_cons_of_mem _ hm)))
  | input v pre c c' _ ih =>
    exact absurd (List.mem_cons_self _ _) hi
  | other a pre c c' ha hs ih =>
    exact ih (fun hm => hi (List.mem_cons_of_mem _ hm))

theorem read_input_file_bad (sys : System) (c : Locals) (path : String)
    (hu : c.use_input_file = true) (hp : c.input_file = some path)
    (hbad : bad_input_file sys path) : read_input_file sys c = .error 1 := by
  unfold read_input_file
  rw [hu, hp]
  rcases hbad with h | h | ⟨n, h, hn⟩
  · simp only [h]
  · simp only [h]
  · simp only [h]
    exact if_pos hn

theorem read_input_file_range (sys : System) (c c' : Locals)
    (hc : 2 ≤ c.n ∧ c.n ≤ (MAX_PLAYERS : Int)) (h : read_input_file sys c = .ok c') :
    2 ≤ c'.n ∧ c'.n ≤ (MAX_PLAYERS : Int) := by
  unfold read_input_file at h
  split at h
  · split at h
    · exact absurd h (by simp)
    · exact absurd h (by simp)
    · split_ifs at h with hn
      simp only [Except.ok.injEq] at h
      subst h
      simp only []
      omega
  · simp only [Except.ok.injEq] at h
    subst h; exact hc

theorem read_input_file_code (sys : System) (c : Locals) (code : Int)
    (h : read_input_file sys c = .error code) : code = 1 := by
  unfold read_input_file at h
  split at h
  · split at h
    · simp only [Except.error.injEq] at h; exact h.symm
    · simp only [Except.error.injEq] at h; exact h.symm
    · split_ifs at h with hn
      simp only [Except.error.injEq] at h; exact h.symm
  · exact absurd h (by simp)

theorem scanned_append (atoi : String → Int) (p q : List String) (c c1 c2 : Locals)
    (h1 : Scanned atoi p c c1) (h2 : Scanned atoi q c1 c2) : Scanned atoi (p ++ q) c c2 := by
  induction h1 with
  | done c => exact h2
  | roster v rest c c' hv _ ih => exact Scanned.roster v _ c c2 hv (ih h2)
  | output v rest c c' _ ih => exact Scanned.output v _ c c2 (ih h2)
  | input v rest c c' _ ih => exact Scanned.input v _ c c2 (ih h2)
  | other a rest c c' ha _ ih => exact Scanned.other a _ c c2 ha (ih h2)

theorem scanned_to_end_append (atoi : String → Int) (p q : List String) (c c1 c2 : Locals)
    (h1 : Scanned atoi p c c1) (h2 : ScannedToEnd atoi q c1 c2) :
    ScannedToEnd atoi (p ++ q) c c2 := by
  cases h2 with
  | whole _ _ _ h => exact ScannedToEnd.whole _ c c2 (scanned_append atoi p q c c1 c2 h1 h)
  | trailing pre a _ _ ha h =>
    rw [← List.append_assoc]
    exact ScannedToEnd.trailing (p ++ pre) a c c2 ha (scanned_append atoi p pre c c1 c2 h1 h)

theorem parse_args_to_end (atoi : String → Int) (args : List String) (c c' : Locals)
    (h : ScannedToEnd atoi args c c') : parse_args atoi args c = .ok c' := by
  cases h with
  | whole _ _ _ h =>
    have := parse_args_scanned atoi args c c' h []
    rw [List.append_nil] at this
    rw [this]; rfl
  | trailing pre a _ _ ha h =>
    rw [parse_args_scanned atoi pre c c' h [a]]
    rcases ha with rfl | rfl | rfl <;> rfl

theorem mem_dropLast_cons (x a : String) (l : List String) (h : x ∈ l.dropLast) :
    x ∈ (a :: l).dropLast := by
  cases l with
  | nil => simp at h
  | cons b t =>
    rw [List.dropLast_cons₂]
    exact List.mem_cons_of_mem _ h

theorem scanned_input_file_dropLast (atoi : String → Int) (post : List String) (c c' : Locals)
    (h : Scanned atoi post c c') (hi : "-i" ∉ post.dropLast) :
    c'.input_file = c.input_file ∧ c'.use_input_file = c.use_input_file := by
  induction h with
  | done c => exact ⟨rfl, rfl⟩
  | roster v pre c c' hv _ ih =>
    exact ih (fun hm => hi (mem_dropLast_cons _ _ _ (mem_dropLast_cons _ _ _ hm)))
  | output v pre c c' _ ih =>
    exact ih (fun hm => hi (mem_dropLast_cons _ _ _ (mem_dropLast_cons _ _ _ hm)))
  | input v pre c c' _ ih =>
    exact absurd (by rw [List.dropLast_cons₂]; exact List.mem_cons_self _ _) hi
  | other a pre c c' ha hs ih =>
    exact ih (fun hm => hi (mem_dropLast_cons _ _ _ hm))

theorem to_end_input_file (atoi : String → Int) (post : List String) (c c' : Locals)
    (h : ScannedToEnd atoi post c c') (hi : "-i" ∉ post.dropLast) :
    c'.input_file = c.input_file ∧ c'.use_input_file = c.use_input_file := by
  cases h with
  | whole _ _ _ h => exact scanned_input_file_dropLast atoi post c c' h hi
  | trailing pre a _ _ ha h =>
    rw [List.dropLast_concat] at hi
    exact scanned_input_file atoi pre c c' h hi

theorem scanned_use_input (atoi : String → Int) (pre : List String) (c c' : Locals)
    (h : Scanned atoi pre c c') (hc : c.input_file ≠ none → c.use_input_file = true) :
    c'.input_file ≠ none → c'.use_input_file = true := by
  induction h with
  | done c => exact hc
  | roster v pre c c' hv _ ih => exact ih hc
  | output v pre c c' _ ih => exact ih hc
  | input v pre c c' _ ih => exact ih (fun _ => rfl)
  | other a pre c c' ha hs ih => exact ih hc

theorem to_end_use_input (atoi : String → Int) (args : List String) (c c' : Locals)
    (h : ScannedToEnd atoi args c c') (hc : c.input_file ≠ none → c.use_input_file = true) :
    c'.input_file ≠ none → c'.use_input_file = true := by
  cases h with
  | whole _ _ _ h => exact scanned_use_input atoi args c c' h hc
  | trailing pre a _ _ ha h => exact scanned_use_input atoi pre c c' h hc
theorem scan_cases_aux (atoi : String → Int) : ∀ (k : Nat) (args : List String) (c : Locals),
    args.length ≤ k →
    (∃ c', ScannedToEnd atoi args c c') ∨
    (∃ pre h rest c', args = pre ++ h :: rest ∧ (h = "-h" ∨ h = "--help") ∧
      Scanned atoi pre c c') ∨
    (∃ pre v rest c', args = pre ++ "-n" :: v :: rest ∧ Scanned atoi pre c c' ∧
      out_of_range (atoi v)) := by
  have lift : ∀ (p q : List String) (c c1 : Locals), Scanned atoi p c c1 →
      ((∃ c', ScannedToEnd atoi q c1 c') ∨
        (∃ pre h rest c', q = pre ++ h :: rest ∧ (h = "-h" ∨ h = "--help") ∧
          Scanned atoi pre c1 c') ∨
        (∃ pre v rest c', q = pre ++ "-n" :: v :: rest ∧ Scanned atoi pre c1 c' ∧
          out_of_range (atoi v))) →
      ((∃ c', ScannedToEnd atoi (p ++ q) c c') ∨
        (∃ pre h rest c', p ++ q = pre ++ h :: rest ∧ (h = "-h" ∨ h = "--help") ∧
          Scanned atoi pre c c') ∨
        (∃ pre v rest c', p ++ q = pre ++ "-n" :: v :: rest ∧ Scanned atoi pre c c' ∧
          out_of_range (atoi v))) := by
    intro p q c c1 hp hq
    rcases hq with ⟨c', h⟩ | ⟨pre, h, rest, c', rfl, hh, hs⟩ | ⟨pre, v, rest, c', rfl, hs, hv⟩
    · exact Or.inl ⟨c', scanned_to_end_append atoi p q c c1 c' hp h⟩
    · exact Or.inr (Or.inl ⟨p ++ pre, h, rest, c', (List.append_assoc _ _ _).symm, hh,
        scanned_append atoi p pre c c1 c' hp hs⟩)
    · exact Or.inr (Or.inr ⟨p ++ pre, v, rest, c', (List.append_assoc _ _ _).symm,
        scanned_append atoi p pre c c1 c' hp hs, hv⟩)
  intro k
  induction k with
  | zero =>
    intro args c hk
    have : args = [] := List.length_eq_zero.mp (by omega)
    subst this
    exact Or.inl ⟨c, ScannedToEnd.whole _ _ _ (Scanned.done c)⟩
  | succ k ih =>
    intro args c hk
    match args, hk with
    | [], _ => exact Or.inl ⟨c, ScannedToEnd.whole _ _ _ (Scanned.done c)⟩
    | [a], _ =>
      by_cases hh : a = "-h" ∨ a = "--help"
      · exact Or.inr (Or.inl ⟨[], a, [], c, rfl, hh, Scanned.done c⟩)
      · by_cases hf : a = "-n" ∨ a = "-o" ∨ a = "-i"
        · exact Or.inl ⟨c, ScannedToEnd.trailing [] a c c hf (Scanned.done c)⟩
        · refine Or.inl ⟨c, ScannedToEnd.whole _ _ _
            (Scanned.other a [] c c ?_ (Scanned.done c))⟩
          tauto
    | a :: v :: rest, hk =>
      simp only [List.length_cons] at hk
      by_cases h1 : a = "-n"
      · subst h1
        by_cases hv : out_of_range (atoi v)
        · exact Or.inr (Or.inr ⟨[], v, rest, c, rfl, Scanned.done c, hv⟩)
        · exact lift ["-n", v] rest c { c with n := atoi v }
            (Scanned.roster v [] c _ hv (Scanned.done _)) (ih rest _ (by omega))
      · by_cases h2 : a = "-o"
        · subst h2
          exact lift ["-o", v] rest c { c with output_file := some v }
            (Scanned.output v [] c _ (Scanned.done _)) (ih rest _ (by omega))
        · by_cases h3 : a = "-i"
          · subst h3
            exact lift ["-i", v] rest c { c with input_file := some v, use_input_file := true }
              (Scanned.input v [] c _ (Scanned.done _)) (ih rest _ (by omega))
          · by_cases hh : a = "-h" ∨ a = "--help"
            · exact Or.inr (Or.inl ⟨[], a, v :: rest, c, rfl, hh, Scanned.done c⟩)
            · exact lift [a] (v :: rest) c c
                (Scanned.other a [] c c (by tauto) (Scanned.done c))
                (ih (v :: rest) c (by simp only [List.length_cons]; omega))

theorem parse_args_help (atoi : String → Int) (h : String) (rest : List String) (c : Locals)
    (hh : h = "-h" ∨ h = "--help") : parse_args atoi (h :: rest) c = .error 0 := by
  cases rest with
  | nil => simp only [parse_args]; rw [if_pos hh]
  | cons v t =>
    rcases hh with rfl | rfl <;> rfl

theorem read_input_file_none (sys : System) (c : Locals) (h : c.input_file = none) :
    read_input_file sys c = .ok c := by
  unfold read_input_file
  rw [h]
  cases c.use_input_file <;> rfl

theorem read_input_file_good (sys : System) (c : Locals) (path : String) (n : Int)
    (hu : c.use_input_file = true) (hp : c.input_file = some path)
    (hr : sys.read_int path = .value n) (hn : ¬ out_of_range n) :
    read_input_file sys c = .ok { c with n := n } := by
  unfold read_input_file
  rw [hu, hp]
  simp only [hr]
  exact if_neg hn

/-- C7 (amended): the start-up of `main` validates the roster size.  The scan of
the arguments ends in one of three ways: it runs to the end of the list, it
reaches a help option, or it reaches a `-n` with a value out of range.  A `-n`
that the scan reaches with a value out of range makes `main` return 1; a `-h` or
`--help` that the scan reaches makes `main` return 0; when the scan runs to the
end (a `-n`, `-o` or `-i` in last position is passed over), the input file it has
recorded, the value of the last `-i` it took with a value, makes `main` return 1
if it cannot be opened, holds no integer or holds one out of range, and otherwise
`main` goes on, with the integer of the file or, without input file, with the
roster size of the scan.  Every return from the start-up has code 1, or code 0
when a help option is among the arguments; whenever `main` goes on to create the
shared state and the students, `2 ≤ n ≤ MAX_PLAYERS`; without arguments `main`
goes on with `n = 4`. -/
theorem startup_validates_roster (sys : System) (args : List String) :
    (∀ c, startup sys args = .ok c → 2 ≤ c.n ∧ c.n ≤ (MAX_PLAYERS : Int)) ∧
    (∀ code, startup sys args = .error code →
      code = 1 ∨ (code = 0 ∧ ("-h" ∈ args ∨ "--help" ∈ args))) ∧
    (∀ pre v rest c', args = pre ++ "-n" :: v :: rest →
      Scanned sys.atoi pre default_locals c' → out_of_range (sys.atoi v) →
      startup sys args = .error 1) ∧
    (∀ pre h rest c', args = pre ++ h :: rest → (h = "-h" ∨ h = "--help") →
      Scanned sys.atoi pre default_locals c' →
      startup sys args = .error 0) ∧
    (∀ c path, ScannedToEnd sys.atoi args default_locals c → c.input_file = some path →
      bad_input_file sys path → startup sys args = .error 1) ∧
    (∀ pre path post c1 c2, args = pre ++ "-i" :: path :: post →
      Scanned sys.atoi pre default_locals c1 →
      ScannedToEnd sys.atoi post
        { c1 with input_file := some path, use_input_file := true } c2 →
      "-i" ∉ post.dropLast → bad_input_file sys path →
      startup sys args = .error 1) ∧
    (∀ c path n, ScannedToEnd sys.atoi args default_locals c → c.input_file = some path →
      sys.read_int path = .value n → ¬ out_of_range n →
      startup sys args = .ok { c with n := n }) ∧
    (∀ c, ScannedToEnd sys.atoi args default_locals c → c.input_file = none →
      startup sys args = .ok c) ∧
    ((∃ c, ScannedToEnd sys.atoi args default_locals c) ∨
      (∃ pre h rest c', args = pre ++ h :: rest ∧ (h = "-h" ∨ h = "--help") ∧
        Scanned sys.atoi pre default_locals c') ∨
      (∃ pre v rest c', args = pre ++ "-n" :: v :: rest ∧
        Scanned sys.atoi pre default_locals c' ∧ out_of_range (sys.atoi v))) ∧
    startup sys [] = .ok default_locals ∧ default_locals.n = 4 := by
  have hend : ∀ c, ScannedToEnd sys.atoi args default_locals c →
      startup sys args = read_input_file sys c ∧
      (c.input_file ≠ none → c.use_input_file = true) := by
    intro c hs
    refine ⟨?_, to_end_use_input sys.atoi args default_locals c hs
      (fun h => absurd rfl h)⟩
    unfold startup
    rw [parse_args_to_end sys.atoi args default_locals c hs]
  have hbadfile : ∀ c path, ScannedToEnd sys.atoi args default_locals c →
      c.input_file = some path → bad_input_file sys path → startup sys args = .error 1 := by
    intro c path hs hp hbad
    obtain ⟨h1, h2⟩ := hend c hs
    rw [h1]
    exact read_input_file_bad sys c path (h2 (by rw [hp]; simp)) hp hbad
  refine ⟨?_, ?_, ?_, ?_, hbadfile, ?_, ?_, ?_,
    scan_cases_aux sys.atoi args.length args default_locals le_rfl, rfl, rfl⟩
  · intro c h
    unfold startup at h
    split at h
    · exact absurd h (by simp)
    · rename_i c0 h0
      have hr := parse_args_range_aux sys.atoi args.length args default_locals c0 le_rfl
        (by decide) h0
      exact read_input_file_range sys c0 c hr h
  · intro code h
    unfold startup at h
    split at h
    · rename_i code0 h0
      simp only [Except.error.injEq] at h
      subst h
      exact parse_args_code_aux sys.atoi args.length args default_locals code0 le_rfl h0
    · exact Or.inl (read_input_file_code sys _ code h)
  · intro pre v rest c' hargs hs hbad
    subst hargs
    unfold startup
    rw [parse_args_scanned sys.atoi pre default_locals c' hs]
    simp only [parse_args, if_true]
    rw [if_pos (show sys.atoi v < 2 ∨ sys.atoi v > (MAX_PLAYERS : Int) from hbad)]
  · intro pre h rest c' hargs hh hs
    subst hargs
    unfold startup
    rw [parse_args_scanned sys.atoi pre default_locals c' hs, parse_args_help sys.atoi h rest c' hh]
  · intro pre path post c1 c2 hargs hs1 hs2 hi hbad
    have hpre : Scanned sys.atoi (pre ++ ["-i", path]) default_locals
        { c1 with input_file := some path, use_input_file := true } :=
      scanned_append sys.atoi pre ["-i", path] default_locals c1 _ hs1
        (Scanned.input path [] c1 _ (Scanned.done _))
    have hall : ScannedToEnd sys.atoi args default_locals c2 := by
      rw [hargs, show pre ++ "-i" :: path :: post = (pre ++ ["-i", path]) ++ post by simp]
      exact scanned_to_end_append sys.atoi _ post default_locals _ c2 hpre hs2
    obtain ⟨g1, _⟩ := to_end_input_file sys.atoi post _ c2 hs2 hi
    exact hbadfile c2 path hall g1 hbad
  · intro c path n hs hp hr hn
    obtain ⟨h1, h2⟩ := hend c hs
    rw [h1]
    exact read_input_file_good sys c path n (h2 (by rw [hp]; simp)) hp hr hn
  · intro c hs hp
    rw [(hend c hs).1]
    exact read_input_file_none sys c hp

/-- Witness of C7: after `-o log.txt` the scan reaches `-n` with a value that `atoi`
reads as 50, and `main` returns 1; and with `-i bad.txt -o` the scan passes over
the `-o` in last position and `main` returns 1 for the file that cannot be
opened. -/
theorem startup_validates_roster_witness :
    out_of_range 50 ∧
    startup ⟨fun _ => 50, fun _ => .cannot_open⟩ ["-o", "log.txt", "-n", "50"] = .error 1 ∧
    bad_input_file ⟨fun _ => 50, fun _ => .cannot_open⟩ "bad.txt" ∧
    startup ⟨fun _ => 50, fun _ => .cannot_open⟩ ["-i", "bad.txt", "-o"] = .error 1 :=
  ⟨Or.inr (by decide),
    (startup_validates_roster ⟨fun _ => 50, fun _ => .cannot_open⟩
      ["-o", "log.txt", "-n", "50"]).2.2.1 ["-o", "log.txt"] "50" []
      { default_locals with output_file := some "log.txt" } rfl
      (Scanned.output "log.txt" [] _ _ (Scanned.done _)) (Or.inr (by decide)),
    Or.inl rfl,
    (startup_validates_roster ⟨fun _ => 50, fun _ => .cannot_open⟩
      ["-i", "bad.txt", "-o"]).2.2.2.2.2.1 [] "bad.txt" ["-o"] default_locals
      { default_locals with input_file := some "bad.txt", use_input_file := true } rfl
      (Scanned.done _)
      (ScannedToEnd.trailing [] "-o" _ _ (Or.inr (Or.inl rfl)) (Scanned.done _))
      (by simp) (Or.inl rfl)⟩

/-- Counterexample to C7 as stated: with a help option in front of it, a `-n` value
that `atoi` reads as 50 does not keep `main` from returning 0, and neither does an
`-i` file that cannot be opened when a help option follows it. -/
theorem help_option_returns_zero :
    out_of_range 50 ∧
    bad_input_file ⟨fun _ => 50, fun _ => .cannot_open⟩ "missing.txt" ∧
    startup ⟨fun _ => 50, fun _ => .cannot_open⟩ ["-h", "-n", "50"] = .error 0 ∧
    startup ⟨fun _ => 50, fun _ => .cannot_open⟩ ["-i", "missing.txt", "-h"] = .error 0 :=
  ⟨Or.inr (by decide), Or.inl rfl, rfl, rfl⟩

/-! ### Cancellation -/

/-- When the first read of `stop_flag` in the registration wait finds it set,
`run_tournament` returns at once: the state is the one `main` set up, with one
line printed; it does not set `game_over` and posts no semaphore. -/
theorem run_tournament_cancelled_registration (env : Env) (n fuel : Nat) (hn : 0 < n)
    (hfuel : 0 < fuel) (hstop : env.stop_flag 0 = true) :
    run_tournament env n fuel (initial_world n) =
      .returned { initial_world n with
        stop_reads := 1, output := [Event.registration_interrupted] } := by
  obtain ⟨f, rfl⟩ : ∃ f, fuel = f + 1 := ⟨fuel - 1, by omega⟩
  unfold run_tournament wait_registration
  rw [if_pos (by exact_mod_cast hn)]
  simp [read_stop_flag, initial_world, hstop, print]

/-- A student whose semaphore is 0 stays blocked in `sem_wait`: joining it never
returns. -/
theorem pthread_join_blocked (env : Env) (id : Nat) (w : World)
    (h : w.player_sems.getD id 0 = 0) : pthread_join env id w = none := by
  have ht : student_turn env id w = none := by
    unfold student_turn
    rw [if_pos h]
  unfold pthread_join
  rw [h]
  simp only [student_loop, ht]

/-! ### The rendezvous of a match in the interleaved program -/

theorem upd_same {α : Type} (f : Nat → α) (k : Nat) (v : α) : upd f k v k = v := by
  simp [upd]

theorem upd_other {α : Type} (f : Nat → α) (k x : Nat) (v : α) (h : x ≠ k) :
    upd f k v x = f x := by
  simp [upd, h]

theorem exp_woken_pos (o : OPc) (k : Nat) (h : exp_woken o k ≠ 0) :
    k = (pair_of o).1 ∨ k = (pair_of o).2 := by
  cases o <;> simp_all [exp_woken, pair_of] <;> tauto

theorem getD_set_bounds (l : List Int) (id k : Nat) (m : Int) (hm : 0 ≤ m ∧ m ≤ 2)
    (h : 0 ≤ l.getD k 0 ∧ l.getD k 0 ≤ 2) :
    0 ≤ (l.set id m).getD k 0 ∧ (l.set id m).getD k 0 ≤ 2 := by
  by_cases hk : id = k
  · subst hk
    by_cases hl : id < l.length
    · rw [getD_set_self _ _ _ _ hl]; exact hm
    · have : (l.set id m).getD id 0 = 0 := by
        simp [List.getD_eq_getElem?_getD, List.getElem?_set, hl]
      rw [this]; decide
  · rw [getD_set_ne _ _ _ _ _ hk]; exact h

theorem core_student (n id r : Nat) (s : CState) (h : Core s) :
    Core (student_step n id r s) := by
  unfold student_step
  by_cases hid : id < n
  · rw [if_pos hid]
    have htok := h.tokens id
    have hwr := h.wrote_eq id
    cases hp : s.student id with
    | start =>
      simp only []
      rw [hp] at htok hwr
      simp only [active, is_post, is_done] at htok hwr
      refine ⟨h.pair_lt, h.pairing, h.taken_eq, h.woken_eq, ?_, ?_, h.signals, h.moves_ok, h.not_over, h.running⟩
      · intro k
        by_cases hk : k = id
        · subst hk; simp only [upd_same, active, is_done]; omega
        · simp only [upd_other _ _ _ _ hk]; exact h.tokens k
      · intro k
        by_cases hk : k = id
        · subst hk; simp only [upd_same, is_post]; omega
        · simp only [upd_other _ _ _ _ hk]; exact h.wrote_eq k
    | waiting =>
      simp only []
      rw [hp] at htok hwr
      simp only [active, is_post, is_done] at htok hwr
      split_ifs with hs
      · exact h
      · refine ⟨h.pair_lt, h.pairing, h.taken_eq, h.woken_eq, ?_, ?_, h.signals, h.moves_ok, h.not_over, h.running⟩
        · intro k
          by_cases hk : k = id
          · subst hk; simp only [upd_same, active, is_done]; omega
          · simp only [upd_other _ _ _ _ hk]; exact h.tokens k
        · intro k
          by_cases hk : k = id
          · subst hk; simp only [upd_same, is_post]; omega
          · simp only [upd_other _ _ _ _ hk]; exact h.wrote_eq k
    | woken =>
      simp only []
      rw [hp] at htok hwr
      simp only [active, is_post, is_done] at htok hwr
      refine ⟨h.pair_lt, h.pairing, h.taken_eq, h.woken_eq, ?_, ?_, h.signals, h.moves_ok, h.not_over, h.running⟩
      · intro k
        by_cases hk : k = id
        · subst hk; simp only [upd_same, active, is_done]; omega
        · simp only [upd_other _ _ _ _ hk]; exact h.tokens k
      · intro k
        by_cases hk : k = id
        · subst hk; simp only [upd_same, is_post]; omega
        · simp only [upd_other _ _ _ _ hk]; exact h.wrote_eq k
    | checked g =>
      simp only []
      rw [hp] at htok hwr
      simp only [active, is_post, is_done] at htok hwr
      split_ifs with hs
      · refine ⟨h.pair_lt, h.pairing, h.taken_eq, h.woken_eq, ?_, ?_, h.signals, h.moves_ok, h.not_over, h.running⟩
        · intro k
          by_cases hk : k = id
          · subst hk; simp only [upd_same, active, is_done]; omega
          · simp only [upd_other _ _ _ _ hk]; exact h.tokens k
        · intro k
          by_cases hk : k = id
          · subst hk; simp only [upd_same, is_post]; omega
          · simp only [upd_other _ _ _ _ hk]; exact h.wrote_eq k
      · refine ⟨h.pair_lt, h.pairing, h.taken_eq, h.woken_eq, ?_, ?_, h.signals, h.moves_ok, h.not_over, h.running⟩
        · intro k
          by_cases hk : k = id
          · subst hk; simp only [upd_same, active, is_done]; omega
          · simp only [upd_other _ _ _ _ hk]; exact h.tokens k
        · intro k
          by_cases hk : k = id
          · subst hk; simp only [upd_same, is_post]; omega
          · simp only [upd_other _ _ _ _ hk]; exact h.wrote_eq k
    | is_player =>
      simp only []
      rw [hp] at htok hwr
      simp only [active, is_post, is_done] at htok hwr
      split_ifs with hs
      · refine ⟨h.pair_lt, h.pairing, h.taken_eq, h.woken_eq, ?_, ?_, h.signals, h.moves_ok, h.not_over, h.running⟩
        · intro k
          by_cases hk : k = id
          · subst hk; simp only [upd_same, active, is_done]; omega
          · simp only [upd_other _ _ _ _ hk]; exact h.tokens k
        · intro k
          by_cases hk : k = id
          · subst hk; simp only [upd_same, is_post]; omega
          · simp only [upd_other _ _ _ _ hk]; exact h.wrote_eq k
      · refine ⟨h.pair_lt, h.pairing, h.taken_eq, h.woken_eq, ?_, ?_, h.signals, h.moves_ok, h.not_over, h.running⟩
        · intro k
          by_cases hk : k = id
          · subst hk; simp only [upd_same, active, is_done]; omega
          · simp only [upd_other _ _ _ _ hk]; exact h.tokens k
        · intro k
          by_cases hk : k = id
          · subst hk; simp only [upd_same, is_post]; omega
          · simp only [upd_other _ _ _ _ hk]; exact h.wrote_eq k
    | move =>
      simp only []
      rw [hp] at htok hwr
      simp only [active, is_post, is_done] at htok hwr
      refine ⟨h.pair_lt, h.pairing, h.taken_eq, h.woken_eq, ?_, ?_, h.signals, ?_, h.not_over, h.running⟩
      · intro k
        by_cases hk : k = id
        · subst hk; simp only [upd_same, active, is_done]; omega
        · simp only [upd_other _ _ _ _ hk]; exact h.tokens k
      · intro k
        by_cases hk : k = id
        · subst hk; simp only [upd_same, is_post]; omega
        · simp only [upd_other _ _ _ _ hk]; exact h.wrote_eq k
      · intro k
        exact getD_set_bounds _ id k _ (by omega) (h.moves_ok k)
    | post =>
      simp only []
      rw [hp] at htok hwr
      simp only [active, is_post, is_done] at htok hwr
      have hpos : exp_woken s.orch id ≠ 0 := by
        have := h.woken_eq id
        omega
      have hne := h.pair_lt
      have hsig := h.signals
      refine ⟨h.pair_lt, h.pairing, h.taken_eq, h.woken_eq, ?_, ?_, ?_, h.moves_ok, h.not_over, h.running⟩
      · intro k
        by_cases hk : k = id
        · subst hk; simp only [upd_same, active, is_done]; omega
        · simp only [upd_other _ _ _ _ hk]; exact h.tokens k
      · intro k
        by_cases hk : k = id
        · subst hk; simp only [upd_same, is_post]; omega
        · simp only [upd_other _ _ _ _ hk]; exact h.wrote_eq k
      · rcases exp_woken_pos s.orch id hpos with hk | hk
        · have h2 : (pair_of s.orch).2 ≠ id := by omega
          simp only []
          rw [← hk, upd_same, upd_other _ _ _ _ h2]
          rw [← hk] at hsig
          omega
        · have h1 : (pair_of s.orch).1 ≠ id := by omega
          simp only []
          rw [← hk, upd_same, upd_other _ _ _ _ h1]
          rw [← hk] at hsig
          omega
    | done =>
      simp only []
      exact h
  · rw [if_neg hid]; exact h

theorem is_post_le_active (p : SPc) : is_post p ≤ active p := by
  cases p <;> simp [is_post, active]

theorem asleep_of_core (s : CState) (hc : Core s) (hw : ∀ k, exp_woken s.orch k = 0) :
    Asleep s := by
  refine ⟨hc.not_over, fun k => ?_⟩
  have h1 := hc.tokens k
  have h2 := hc.woken_eq k
  rw [hw] at h2
  cases hp : s.student k <;> rw [hp] at h1 <;> simp only [active, is_done] at h1 <;>
    first
    | exact ⟨by omega, Or.inl rfl⟩
    | exact ⟨by omega, Or.inr rfl⟩
    | omega

theorem term_orch (n : Nat) (s : CState) (ht : is_terminal s.orch = true) (h : Term s) :
    is_terminal (orch_step n s).orch = true ∧ Term (orch_step n s) := by
  unfold orch_step
  cases hp : s.orch with
  | finish => exact ⟨rfl, Or.inr (Or.inl rfl)⟩
  | wake i =>
    have hg : s.shared.game_over = 1 := by
      rcases h with h | h | ⟨h, _⟩
      · rw [hp] at h; exact absurd h (by simp)
      · exact h
      · rw [hp] at h; exact absurd h (by simp)
    dsimp only
    split_ifs
    · exact ⟨rfl, Or.inr (Or.inl hg)⟩
    · exact ⟨rfl, Or.inr (Or.inl hg)⟩
  | returned =>
    dsimp only
    rw [hp]
    exact ⟨rfl, h⟩
  | reg_loop r => rw [hp] at ht; exact absurd ht (by simp [is_terminal])
  | reg_stop => rw [hp] at ht; exact absurd ht (by simp [is_terminal])
  | reg_read => rw [hp] at ht; exact absurd ht (by simp [is_terminal])
  | init_counters => rw [hp] at ht; exact absurd ht (by simp [is_terminal])
  | outer i => rw [hp] at ht; exact absurd ht (by simp [is_terminal])
  | inner i j => rw [hp] at ht; exact absurd ht (by simp [is_terminal])
  | stop_check i j => rw [hp] at ht; exact absurd ht (by simp [is_terminal])
  | pair i j => rw [hp] at ht; exact absurd ht (by simp [is_terminal])
  | post1 i j => rw [hp] at ht; exact absurd ht (by simp [is_terminal])
  | post2 i j => rw [hp] at ht; exact absurd ht (by simp [is_terminal])
  | wait1 i j => rw [hp] at ht; exact absurd ht (by simp [is_terminal])
  | wait2 i j => rw [hp] at ht; exact absurd ht (by simp [is_terminal])
  | read i j => rw [hp] at ht; exact absurd ht (by simp [is_terminal])
  | score i j m1 m2 => rw [hp] at ht; exact absurd ht (by simp [is_terminal])

theorem inv_orch (n : Nat) (s : CState) (h : Inv s) : Inv (orch_step n s) := by
  rcases h with ⟨ht, hterm⟩ | hc
  · exact Or.inl (term_orch n s ht hterm)
  · have h1 := hc.pair_lt
    have h2 := hc.pairing
    have h3 := hc.taken_eq
    have h4 := hc.woken_eq
    have h5 := hc.tokens
    have h6 := hc.wrote_eq
    have h7 := hc.signals
    have h8 := hc.moves_ok
    have h9 := hc.not_over
    unfold orch_step
    cases hp : s.orch with
    | reg_loop r =>
      rw [hp] at h1 h2 h3 h4 h7
      simp only []
      split_ifs
      · exact Or.inr ⟨h1, by simp [in_round], h3, h4, h5, h6, h7, h8, h9, rfl⟩
      · exact Or.inr ⟨h1, by simp [in_round], h3, h4, h5, h6, h7, h8, h9, rfl⟩
    | reg_stop =>
      have hasleep : Asleep s := asleep_of_core s hc (fun k => by rw [hp]; rfl)
      rw [hp] at h1 h2 h3 h4 h7
      simp only []
      split_ifs
      · exact Or.inl ⟨rfl, Or.inr (Or.inr ⟨rfl, hasleep⟩)⟩
      · exact Or.inr ⟨h1, by simp [in_round], h3, h4, h5, h6, h7, h8, h9, rfl⟩
    | reg_read =>
      rw [hp] at h1 h2 h3 h4 h7
      simp only []
      exact Or.inr ⟨h1, by simp [in_round], h3, h4, h5, h6, h7, h8, h9, rfl⟩
    | init_counters =>
      rw [hp] at h1 h2 h3 h4 h7
      simp only []
      exact Or.inr ⟨h1, by simp [in_round], h3, h4, h5, h6, h7, h8, h9, rfl⟩
    | outer i =>
      rw [hp] at h1 h2 h3 h4 h7
      simp only []
      have hz : ∀ k, s.posted k = 0 := fun k => by
        have := h5 k; have := h4 k; simp only [exp_woken] at this; omega
      split_ifs
      · refine Or.inr ⟨Nat.lt_succ_self i, by simp [in_round], h3, h4, h5, h6, ?_, h8, h9, rfl⟩
        simp only [pair_of, exp_taken] at h7 h3 ⊢
        rw [hz, hz]; rw [hz, hz] at h7; exact h7
      · exact Or.inl ⟨rfl, Or.inl rfl⟩
    | inner i j =>
      rw [hp] at h1 h2 h3 h4 h7
      simp only []
      have hz : ∀ k, s.posted k = 0 := fun k => by
        have := h5 k; have := h4 k; simp only [exp_woken] at this; omega
      split_ifs
      · exact Or.inr ⟨h1, by simp [in_round], h3, h4, h5, h6, h7, h8, h9, rfl⟩
      · refine Or.inr ⟨Nat.zero_lt_one, by simp [in_round], h3, h4, h5, h6, ?_, h8, h9, rfl⟩
        simp only [pair_of, exp_taken] at h7 h3 ⊢
        rw [hz, hz]; rw [hz, hz] at h7; exact h7
    | stop_check i j =>
      have hasleep : Asleep s := asleep_of_core s hc (fun k => by rw [hp]; rfl)
      rw [hp] at h1 h2 h3 h4 h7
      simp only []
      split_ifs
      · exact Or.inl ⟨rfl, Or.inr (Or.inr ⟨rfl, hasleep⟩)⟩
      · exact Or.inr ⟨h1, by simp [in_round], h3, h4, h5, h6, h7, h8, h9, rfl⟩
    | pair i j =>
      rw [hp] at h1 h2 h3 h4 h7
      simp only []
      exact Or.inr ⟨h1, fun _ => ⟨rfl, rfl⟩, h3, h4, h5, h6, h7, h8, h9, rfl⟩
    | post1 i j =>
      rw [hp] at h1 h2 h3 h4 h7
      simp only [pair_of, exp_woken, exp_taken, in_round] at h1 h2 h3 h4 h7
      simp only []
      refine Or.inr ⟨h1, fun _ => h2 trivial, h3, ?_, ?_, h6, h7, h8, h9, rfl⟩
      · intro k
        simp only [exp_woken]
        by_cases hk : k = i
        · subst hk; simp only [upd_same, if_true]; rw [h4]
        · simp only [upd_other _ _ _ _ hk, if_neg hk]; exact h4 k
      · intro k
        have := h5 k
        by_cases hk : k = i
        · subst hk; simp only [upd_same]; omega
        · simp only [upd_other _ _ _ _ hk]; exact this
    | post2 i j =>
      rw [hp] at h1 h2 h3 h4 h7
      simp only [pair_of, exp_woken, exp_taken, in_round] at h1 h2 h3 h4 h7
      simp only []
      refine Or.inr ⟨h1, fun _ => h2 trivial, h3, ?_, ?_, h6, h7, h8, h9, rfl⟩
      · intro k
        simp only [exp_woken]
        have := h4 k
        have hj := h4 j
        by_cases hk : k = j
        · subst hk
          simp only [upd_same]
          rw [if_neg (by omega)] at hj
          rw [hj]; simp
        · simp only [upd_other _ _ _ _ hk]
          rw [this]
          by_cases hki : k = i
          · simp [hki]
          · simp [hki, hk]
      · intro k
        have := h5 k
        by_cases hk : k = j
        · subst hk; simp only [upd_same]; omega
        · simp only [upd_other _ _ _ _ hk]; exact this
    | wait1 i j =>
      rw [hp] at h1 h2 h3 h4 h7
      simp only [pair_of, exp_woken, exp_taken, in_round] at h1 h2 h3 h4 h7
      simp only []
      split_ifs with htc
      · exact Or.inr hc
      · refine Or.inr ⟨h1, fun _ => h2 trivial, ?_, h4, h5, h6, ?_, h8, h9, rfl⟩
        · simp only [exp_taken]; omega
        · simp only [pair_of]; omega
    | wait2 i j =>
      rw [hp] at h1 h2 h3 h4 h7
      simp only [pair_of, exp_woken, exp_taken, in_round] at h1 h2 h3 h4 h7
      simp only []
      split_ifs with htc
      · exact Or.inr hc
      · refine Or.inr ⟨h1, fun _ => h2 trivial, ?_, h4, h5, h6, ?_, h8, h9, rfl⟩
        · simp only [exp_taken]; omega
        · simp only [pair_of]; omega
    | read i j =>
      rw [hp] at h1 h2 h3 h4 h7
      simp only []
      exact Or.inr ⟨h1, h2, h3, h4, h5, h6, h7, h8, h9, rfl⟩
    | score i j m1 m2 =>
      rw [hp] at h1 h2 h3 h4 h7
      simp only [pair_of, exp_woken, exp_taken, in_round] at h1 h2 h3 h4 h7
      have hi := h5 i
      have hj := h5 j
      have hwi := h4 i
      have hwj := h4 j
      simp only [true_or, or_true, if_true] at hwi hwj
      have hquiet : ∀ k,
          s.player_sems k + active (s.student k) + is_done (s.student k) = 0 := by
        intro k
        have hk := h5 k
        have hwk := h4 k
        by_cases hki : k = i
        · subst hki; omega
        · by_cases hkj : k = j
          · subst hkj; omega
          · rw [if_neg (by tauto)] at hwk; omega
      simp only []
      refine Or.inr ⟨by simp only [pair_of]; omega, by simp [in_round], rfl,
        fun k => rfl, ?_, ?_, ?_, h8, h9, rfl⟩
      · intro k
        have := hquiet k
        simp only []
        omega
      · intro k
        have := hquiet k
        have := is_post_le_active (s.student k)
        simp only []
        omega
      · simp only [pair_of]
        omega
    | finish =>
      have hrun := hc.running
      rw [hp] at hrun
      exact absurd hrun (by simp [is_terminal])
    | wake i =>
      have hrun := hc.running
      rw [hp] at hrun
      exact absurd hrun (by simp [is_terminal])
    | returned =>
      have hrun := hc.running
      rw [hp] at hrun
      exact absurd hrun (by simp [is_terminal])

theorem student_step_orch (n id r : Nat) (s : CState) :
    (student_step n id r s).orch = s.orch := by
  unfold student_step
  by_cases hid : id < n
  · rw [if_pos hid]
    cases hp : s.student id <;> simp only [] <;> first | rfl | (split_ifs <;> rfl)
  · rw [if_neg hid]

theorem student_step_game_over (n id r : Nat) (s : CState) :
    (student_step n id r s).shared.game_over = s.shared.game_over := by
  unfold student_step
  by_cases hid : id < n
  · rw [if_pos hid]
    cases hp : s.student id <;> dsimp only <;> first | rfl | (split_ifs <;> rfl)
  · rw [if_neg hid]

theorem asleep_student (n id r : Nat) (s : CState) (h : Asleep s) :
    Asleep (student_step n id r s) := by
  obtain ⟨hg, hk⟩ := h
  have hid := hk id
  unfold student_step
  by_cases hlt : id < n
  · rw [if_pos hlt]
    rcases hid.2 with hp | hp
    · rw [hp]
      refine ⟨hg, fun k => ⟨(hk k).1, ?_⟩⟩
      by_cases hkid : k = id
      · subst hkid; exact Or.inr (upd_same _ _ _)
      · dsimp only
        rw [upd_other _ _ _ _ hkid]; exact (hk k).2
    · rw [hp]
      dsimp only
      rw [if_pos hid.1]
      exact ⟨hg, hk⟩
  · rw [if_neg hlt]; exact ⟨hg, hk⟩

theorem inv_step (n : Nat) (a : Action) (s : CState) (h : Inv s) : Inv (step n a s) := by
  cases a with
  | orch => exact inv_orch n s h
  | student id r =>
    rcases h with ⟨ht, hterm⟩ | hc
    · left
      dsimp only [step]
      rw [student_step_orch]
      refine ⟨ht, ?_⟩
      rcases hterm with h1 | h1 | ⟨h1, h2⟩
      · exact Or.inl (by rw [student_step_orch]; exact h1)
      · exact Or.inr (Or.inl (by rw [student_step_game_over]; exact h1))
      · exact Or.inr (Or.inr ⟨by rw [student_step_orch]; exact h1, asleep_student n id r s h2⟩)
    · exact Or.inr (core_student n id r s hc)
  | signal =>
    rcases h with ⟨ht, hterm⟩ | hc
    · left
      refine ⟨ht, ?_⟩
      rcases hterm with h1 | h1 | ⟨h1, h2⟩
      · exact Or.inl h1
      · exact Or.inr (Or.inl h1)
      · exact Or.inr (Or.inr ⟨h1, h2⟩)
    · exact Or.inr ⟨hc.pair_lt, hc.pairing, hc.taken_eq, hc.woken_eq, hc.tokens, hc.wrote_eq,
        hc.signals, hc.moves_ok, hc.not_over, hc.running⟩

theorem inv_run (n : Nat) (acts : List Action) (s : CState) (h : Inv s) :
    Inv (run n acts s) := by
  induction acts generalizing s with
  | nil => exact h
  | cons a acts ih => exact ih (step n a s) (inv_step n a s h)

theorem getD_replicate_zero (m k : Nat) : (List.replicate m (0 : Int)).getD k 0 = 0 := by
  rw [List.getD_eq_getElem?_getD, List.getElem?_replicate]
  split_ifs <;> rfl

theorem core_cinit (n : Nat) : Core (cinit n) := by
  refine ⟨Nat.zero_lt_one, by simp [cinit, in_round], rfl, fun k => rfl, fun k => ?_,
    fun k => rfl, rfl, fun k => ?_, rfl, rfl⟩
  · simp [cinit, active, is_done]
  · simp only [cinit, initial_shared]
    rw [getD_replicate_zero]
    decide

theorem reachable_inv (n : Nat) (s : CState) (h : Reachable n s) : Inv s := by
  obtain ⟨acts, rfl⟩ := h
  exact inv_run n acts (cinit n) (Or.inr (core_cinit n))

theorem in_round_not_terminal (o : OPc) (h : in_round o = true) : is_terminal o = false := by
  cases o <;> simp_all [in_round, is_terminal]

theorem in_round_exp_woken (o : OPc) (h : in_round o = true) (k : Nat) :
    exp_woken o k ≤ 1 ∧ (exp_woken o k = 1 → k = (pair_of o).1 ∨ k = (pair_of o).2) := by
  constructor
  · cases o <;> simp only [exp_woken] <;> first | omega | (split_ifs <;> omega)
  · intro h1
    exact exp_woken_pos o k (by omega)

theorem step_current_moves (n : Nat) (a : Action) (s : CState) :
    (step n a s).shared.current_moves = s.shared.current_moves ∨
    ∃ id r, a = .student id r ∧ s.student id = .move ∧
      (step n a s).shared.current_moves = s.shared.current_moves.set id ((r : Int) % 3) ∧
      0 ≤ (r : Int) % 3 ∧ (r : Int) % 3 ≤ 2 := by
  cases a with
  | orch =>
    left
    simp only [step]
    unfold orch_step
    cases hp : s.orch <;> simp only [] <;> first | rfl | (split_ifs <;> rfl)
  | student id r =>
    simp only [step]
    unfold student_step
    by_cases hid : id < n
    · rw [if_pos hid]
      cases hp : s.student id with
      | move =>
        right
        exact ⟨id, r, rfl, hp, rfl, by omega, by omega⟩
      | start => left; rfl
      | waiting => left; simp only []; split_ifs <;> rfl
      | woken => left; rfl
      | checked g => left; simp only []; split_ifs <;> rfl
      | is_player => left; simp only []; split_ifs <;> rfl
      | post => left; rfl
      | done => left; rfl
    · rw [if_neg hid]; exact Or.inl rfl
  | signal => exact Or.inl rfl

theorem step_pairing (n : Nat) (a : Action) (s : CState) :
    ((step n a s).shared.current_player1 = s.shared.current_player1 ∧
      (step n a s).shared.current_player2 = s.shared.current_player2) ∨
    (a = .orch ∧ ∃ i j, s.orch = .pair i j) := by
  cases a with
  | orch =>
    dsimp only [step]
    unfold orch_step
    cases hp : s.orch with
    | pair i j => exact Or.inr ⟨rfl, i, j, rfl⟩
    | reg_loop r => left; dsimp only; split_ifs <;> exact ⟨rfl, rfl⟩
    | reg_stop => left; dsimp only; split_ifs <;> exact ⟨rfl, rfl⟩
    | reg_read => exact Or.inl ⟨rfl, rfl⟩
    | init_counters => exact Or.inl ⟨rfl, rfl⟩
    | outer i => left; dsimp only; split_ifs <;> exact ⟨rfl, rfl⟩
    | inner i j => left; dsimp only; split_ifs <;> exact ⟨rfl, rfl⟩
    | stop_check i j => left; dsimp only; split_ifs <;> exact ⟨rfl, rfl⟩
    | post1 i j => exact Or.inl ⟨rfl, rfl⟩
    | post2 i j => exact Or.inl ⟨rfl, rfl⟩
    | wait1 i j => left; dsimp only; split_ifs <;> exact ⟨rfl, rfl⟩
    | wait2 i j => left; dsimp only; split_ifs <;> exact ⟨rfl, rfl⟩
    | read i j => exact Or.inl ⟨rfl, rfl⟩
    | score i j m1 m2 => exact Or.inl ⟨rfl, rfl⟩
    | finish => exact Or.inl ⟨rfl, rfl⟩
    | wake i => left; dsimp only; split_ifs <;> exact ⟨rfl, rfl⟩
    | returned => exact Or.inl ⟨rfl, rfl⟩
  | student id r =>
    left
    dsimp only [step]
    unfold student_step
    by_cases hid : id < n
    · rw [if_pos hid]
      cases hp : s.student id
      all_goals first
        | exact ⟨rfl, rfl⟩
        | (dsimp only; split_ifs <;> exact ⟨rfl, rfl⟩)
    · rw [if_neg hid]; exact ⟨rfl, rfl⟩
  | signal => exact Or.inl ⟨rfl, rfl⟩

theorem core_in_round (s : CState) (hc : Core s) (i j : Nat) (hin : in_round s.orch = true)
    (hp : pair_of s.orch = (i, j)) :
    i < j ∧ s.shared.current_player1 = (i : Int) ∧ s.shared.current_player2 = (j : Int) ∧
    (∀ k, s.woken k ≤ 1 ∧ (s.woken k = 1 → k = i ∨ k = j)) ∧
    (∀ k, s.posted k ≤ s.wrote k ∧ s.wrote k ≤ s.woken k) ∧
    (∀ k, s.student k = .move → k = i ∨ k = j) ∧
    s.taken ≤ s.posted i + s.posted j ∧ s.taken ≤ 2 := by
  have h1 := hc.pair_lt
  have h2 := hc.pairing hin
  have h7 := hc.signals
  rw [hp] at h1 h2 h7
  simp only [] at h1 h2 h7
  have hw : ∀ k, s.woken k ≤ 1 ∧ (s.woken k = 1 → k = i ∨ k = j) := by
    intro k
    have := in_round_exp_woken s.orch hin k
    rw [hp] at this
    rw [hc.woken_eq k]
    exact this
  refine ⟨h1, h2.1, h2.2, hw, ?_, ?_, by omega, ?_⟩
  · intro k
    have := hc.wrote_eq k
    have := hc.tokens k
    have := is_post_le_active (s.student k)
    omega
  · intro k hk
    have := hc.tokens k
    rw [hk] at this
    simp only [active] at this
    have := hw k
    exact this.2 (by omega)
  · have := hc.taken_eq
    rw [this]
    cases ho : s.orch <;> simp [exp_taken]

theorem core_at_read (s : CState) (hc : Core s) (i j : Nat)
    (ho : s.orch = .read i j ∨ ∃ m1 m2, s.orch = .score i j m1 m2) :
    s.taken = 2 ∧ s.turn_complete = 0 ∧
    s.woken i = 1 ∧ s.woken j = 1 ∧ s.wrote i = 1 ∧ s.wrote j = 1 ∧
    s.posted i = 1 ∧ s.posted j = 1 ∧
    (∀ k, k ≠ i → k ≠ j → s.woken k = 0 ∧ s.wrote k = 0 ∧ s.posted k = 0) ∧
    (∀ k, s.player_sems k = 0 ∧ active (s.student k) = 0) ∧
    (0 ≤ s.shared.current_moves.getD i 0 ∧ s.shared.current_moves.getD i 0 ≤ 2) ∧
    (0 ≤ s.shared.current_moves.getD j 0 ∧ s.shared.current_moves.getD j 0 ≤ 2) := by
  have h1 := hc.pair_lt
  have h3 := hc.taken_eq
  have h4 := hc.woken_eq
  have h5 := hc.tokens
  have h6 := hc.wrote_eq
  have h7 := hc.signals
  have key : (pair_of s.orch = (i, j) ∧ exp_taken s.orch = 2) ∧
      ∀ k, exp_woken s.orch k = if k = i ∨ k = j then 1 else 0 := by
    rcases ho with ho | ⟨m1, m2, ho⟩ <;> rw [ho] <;> exact ⟨⟨rfl, rfl⟩, fun k => rfl⟩
  obtain ⟨⟨kp, kt⟩, kw⟩ := key
  rw [kp] at h1 h7
  simp only [] at h1 h7
  rw [kt] at h3
  have hwi : s.woken i = 1 := by rw [h4, kw]; simp
  have hwj : s.woken j = 1 := by rw [h4, kw]; simp
  have hi := h5 i
  have hj := h5 j
  have hwk : ∀ k, k ≠ i → k ≠ j → s.woken k = 0 := by
    intro k h1 h2
    rw [h4, kw, if_neg (by tauto)]
  have hq : ∀ k, s.player_sems k = 0 ∧ active (s.student k) = 0 := by
    intro k
    have hk := h5 k
    by_cases hki : k = i
    · subst hki; omega
    · by_cases hkj : k = j
      · subst hkj; omega
      · have := hwk k hki hkj; omega
  have hpi := is_post_le_active (s.student i)
  have hpj := is_post_le_active (s.student j)
  have hqi := hq i
  have hqj := hq j
  have h6i := h6 i
  have h6j := h6 j
  refine ⟨h3, by omega, hwi, hwj, by omega, by omega, by omega, by omega, ?_, hq,
    hc.moves_ok i, hc.moves_ok j⟩
  intro k hki hkj
  have := hwk k hki hkj
  have := h5 k
  have := h6 k
  have := is_post_le_active (s.student k)
  omega

theorem core_at_pair (s : CState) (hc : Core s) (i j : Nat) (ho : s.orch = .pair i j) :
    s.turn_complete = 0 ∧ ∀ k, s.player_sems k = 0 ∧ active (s.student k) = 0 := by
  have h3 := hc.taken_eq
  have h4 := hc.woken_eq
  have h5 := hc.tokens
  have h7 := hc.signals
  rw [ho] at h3 h4 h7
  simp only [exp_taken, exp_woken, pair_of] at h3 h4 h7
  have hi := h5 i
  have hj := h5 j
  have := h4 i
  have := h4 j
  refine ⟨by omega, fun k => ?_⟩
  have := h5 k
  have := h4 k
  omega

/-- C9: in every reachable state of the interleaved program, while a match between
`i` and `j` is in flight the pairing is `(i, j)` (it is written only by the
orchestrator's step at `pair`, where no student holds a wake-up and `turn_complete`
is 0), only students `i` and `j` have been woken, each at most once, a student
posts `turn_complete` only after its write and writes at most once, only the owner
writes a slot of `current_moves` and the value is in {0,1,2}; and when the
orchestrator reads the moves it has taken `turn_complete` exactly twice, both
students have written exactly once and posted exactly once, nobody else has, and
no student holds an unanswered wake-up. -/
theorem round_rendezvous (n : Nat) (s : CState) (hr : Reachable n s) :
    (∀ i j, in_round s.orch = true → pair_of s.orch = (i, j) →
      i < j ∧ s.shared.current_player1 = (i : Int) ∧ s.shared.current_player2 = (j : Int) ∧
      (∀ k, s.woken k ≤ 1 ∧ (s.woken k = 1 → k = i ∨ k = j)) ∧
      (∀ k, s.posted k ≤ s.wrote k ∧ s.wrote k ≤ s.woken k) ∧
      (∀ k, s.student k = .move → k = i ∨ k = j) ∧
      s.taken ≤ s.posted i + s.posted j ∧ s.taken ≤ 2) ∧
    (∀ i j, (s.orch = .read i j ∨ ∃ m1 m2, s.orch = .score i j m1 m2) →
      s.taken = 2 ∧ s.turn_complete = 0 ∧
      s.woken i = 1 ∧ s.woken j = 1 ∧ s.wrote i = 1 ∧ s.wrote j = 1 ∧
      s.posted i = 1 ∧ s.posted j = 1 ∧
      (∀ k, k ≠ i → k ≠ j → s.woken k = 0 ∧ s.wrote k = 0 ∧ s.posted k = 0) ∧
      (∀ k, s.player_sems k = 0 ∧ active (s.student k) = 0) ∧
      (0 ≤ s.shared.current_moves.getD i 0 ∧ s.shared.current_moves.getD i 0 ≤ 2) ∧
      (0 ≤ s.shared.current_moves.getD j 0 ∧ s.shared.current_moves.getD j 0 ≤ 2)) ∧
    (∀ i j, s.orch = .pair i j →
      s.turn_complete = 0 ∧ ∀ k, s.player_sems k = 0 ∧ active (s.student k) = 0) ∧
    (∀ a, (step n a s).shared.current_moves = s.shared.current_moves ∨
      ∃ id r, a = .student id r ∧ s.student id = .move ∧
        (step n a s).shared.current_moves = s.shared.current_moves.set id ((r : Int) % 3) ∧
        0 ≤ (r : Int) % 3 ∧ (r : Int) % 3 ≤ 2) ∧
    (∀ a, ((step n a s).shared.current_player1 = s.shared.current_player1 ∧
        (step n a s).shared.current_player2 = s.shared.current_player2) ∨
      (a = .orch ∧ ∃ i j, s.orch = .pair i j)) := by
  have hinv := reachable_inv n s hr
  refine ⟨?_, ?_, ?_, fun a => step_current_moves n a s, fun a => step_pairing n a s⟩
  · intro i j hin hp
    rcases hinv with ⟨ht, _⟩ | hc
    · rw [in_round_not_terminal _ hin] at ht
      exact absurd ht (by decide)
    · exact core_in_round s hc i j hin hp
  · intro i j ho
    rcases hinv with ⟨ht, _⟩ | hc
    · rcases ho with ho | ⟨m1, m2, ho⟩ <;> rw [ho] at ht <;> simp [is_terminal] at ht
    · exact core_at_read s hc i j ho
  · intro i j ho
    rcases hinv with ht | hc
    · rw [ho] at ht; simp [is_terminal] at ht
    · exact core_at_pair s hc i j ho

/-- Witness of C9: two students, student 1 answers its wake-up before student 0,
then the orchestrator takes `turn_complete` twice and stands at the read of the
moves with exactly two submissions made. -/
theorem round_rendezvous_witness :
    Reachable 2 (run 2 rendezvous_schedule (cinit 2)) ∧
    (run 2 rendezvous_schedule (cinit 2)).orch = .read 0 1 ∧
    (run 2 rendezvous_schedule (cinit 2)).taken = 2 ∧
    (run 2 rendezvous_schedule (cinit 2)).wrote 0 = 1 ∧
    (run 2 rendezvous_schedule (cinit 2)).wrote 1 = 1 ∧
    (run 2 rendezvous_schedule (cinit 2)).shared.current_moves.take 2 = [0, 1] :=
  ⟨⟨rendezvous_schedule, rfl⟩, by decide,
    ((round_rendezvous 2 (run 2 rendezvous_schedule (cinit 2)) ⟨rendezvous_schedule, rfl⟩).2.1
      0 1 (Or.inl (by decide))).1,
    ((round_rendezvous 2 (run 2 rendezvous_schedule (cinit 2)) ⟨rendezvous_schedule, rfl⟩).2.1
      0 1 (Or.inl (by decide))).2.2.2.2.1,
    ((round_rendezvous 2 (run 2 rendezvous_schedule (cinit 2)) ⟨rendezvous_schedule, rfl⟩).2.1
      0 1 (Or.inl (by decide))).2.2.2.2.2.1,
    by decide⟩

/-! ### After an early return of the orchestrator -/

theorem run_append (n : Nat) (a b : List Action) (s : CState) :
    run n (a ++ b) s = run n b (run n a s) := by
  simp [run, List.foldl_append]

theorem reachable_run (n : Nat) (acts : List Action) (s : CState) (h : Reachable n s) :
    Reachable n (run n acts s) := by
  obtain ⟨a0, rfl⟩ := h
  exact ⟨a0 ++ acts, run_append n a0 acts (cinit n)⟩

theorem returned_stays (n : Nat) (a : Action) (s : CState) (ho : s.orch = .returned) :
    (step n a s).orch = .returned ∧ (step n a s).shared.game_over = s.shared.game_over := by
  cases a with
  | orch =>
    dsimp only [step]
    unfold orch_step
    rw [ho]
    exact ⟨ho, rfl⟩
  | student id r =>
    dsimp only [step]
    rw [student_step_orch, student_step_game_over]
    exact ⟨ho, rfl⟩
  | signal => exact ⟨ho, rfl⟩

theorem returned_run (n : Nat) (acts : List Action) (s : CState) (ho : s.orch = .returned) :
    (run n acts s).orch = .returned ∧ (run n acts s).shared.game_over = s.shared.game_over := by
  induction acts generalizing s with
  | nil => exact ⟨ho, rfl⟩
  | cons a acts ih =>
    obtain ⟨h1, h2⟩ := returned_stays n a s ho
    obtain ⟨g1, g2⟩ := ih (step n a s) h1
    exact ⟨g1, g2.trans h2⟩

/-- Once the orchestrator has returned with `game_over` still 0, in every
continuation of the schedule every wake semaphore stays 0 and every student stays
before or in its `sem_wait`: no student ever leaves its loop, so no `pthread_join`
on a student ever returns. -/
theorem early_return_leaves_students_asleep (n : Nat) (s : CState) (hr : Reachable n s)
    (ho : s.orch = .returned) (hg : s.shared.game_over = 0) (acts : List Action) (k : Nat) :
    (run n acts s).orch = .returned ∧ (run n acts s).shared.game_over = 0 ∧
    (run n acts s).player_sems k = 0 ∧
    ((run n acts s).student k = .start ∨ (run n acts s).student k = .waiting) ∧
    (run n acts s).student k ≠ .done := by
  obtain ⟨h1, h2⟩ := returned_run n acts s ho
  rw [hg] at h2
  have hinv := reachable_inv n _ (reachable_run n acts s hr)
  have hasleep : Asleep (run n acts s) := by
    rcases hinv with ⟨_, hterm⟩ | hc
    · rcases hterm with h | h | ⟨_, h⟩
      · rw [h1] at h; exact absurd h (by simp)
      · rw [h2] at h; exact absurd h (by decide)
      · exact h
    · have := hc.running
      rw [h1] at this
      exact absurd this (by simp [is_terminal])
  refine ⟨h1, h2, (hasleep.2 k).1, (hasleep.2 k).2, ?_⟩
  rcases (hasleep.2 k).2 with h | h <;> rw [h] <;> simp

/-! ### The cancellation paths at their failing inputs -/

/-- C5 (the code at the failing inputs): on both cancellation paths `run_tournament`
returns with `game_over` still 0 and both wake semaphores still 0, and joining the
students then never returns; only the path through all matches sets `game_over`
and posts every semaphore.  In the interleaved program, after the early return of
the orchestrator no schedule ever brings a student out of its loop. -/
theorem cancelled_return_skips_wake_all :
    (∃ w, run_tournament cancelled_at_start 2 1 (initial_world 2) = .returned w ∧
      w.output = [Event.registration_interrupted] ∧
      w.shared.game_over = 0 ∧ w.player_sems = [0, 0] ∧ join_students cancelled_at_start 2 w = none) ∧
    (∃ w, run_tournament cancelled_before_first_match 2 1 (initial_world 2) = .returned w ∧
      w.output.getLast? = some Event.tournament_interrupted ∧
      w.shared.game_over = 0 ∧ w.player_sems = [0, 0] ∧
      join_students cancelled_before_first_match 2 w = none) ∧
    (∃ w, run_tournament undisturbed 2 1 (initial_world 2) = .returned w ∧
      w.shared.game_over = 1 ∧ w.player_sems = [1, 1] ∧
      (join_students undisturbed 2 w).isSome = true) ∧
    ((run 2 cancel_schedule (cinit 2)).orch = .returned ∧
      (run 2 cancel_schedule (cinit 2)).shared.game_over = 0 ∧
      ∀ acts k, (run 2 acts (run 2 cancel_schedule (cinit 2))).player_sems k = 0 ∧
        (run 2 acts (run 2 cancel_schedule (cinit 2))).student k ≠ .done) :=
  ⟨⟨_, rfl, by decide, by decide, by decide, by decide⟩,
   ⟨_, rfl, by decide, by decide, by decide, by decide⟩,
   ⟨_, rfl, by decide, by decide, by decide⟩,
   ⟨by decide, by decide, fun acts k =>
     ⟨(early_return_leaves_students_asleep 2 _ ⟨cancel_schedule, rfl⟩ (by decide) (by decide)
        acts k).2.2.1,
      (early_return_leaves_students_asleep 2 _ ⟨cancel_schedule, rfl⟩ (by decide) (by decide)
        acts k).2.2.2.2⟩⟩⟩

/-- C6 (the code at the failing input): with five students and the interrupt seen
at the first poll of the registration, `run_tournament` returns without opening a
match (`matches_played` 0, no pairing announced, all scores 0, no semaphore
posted), but `game_over` is 0 and every student stays blocked, so `main` hangs in
`pthread_join` and never prints the standings nor returns 0.  In the interleaved
program, after that return no schedule ever brings a student out of its loop. -/
theorem cancelled_registration_hangs :
    (∃ w, run_tournament cancelled_at_start 5 1 (initial_world 5) = .returned w ∧
      rounds_opened w.output = [] ∧
      w.shared.matches_played = 0 ∧
      w.shared.scores = List.replicate MAX_PLAYERS 0 ∧
      w.player_sems = [0, 0, 0, 0, 0] ∧
      w.turn_complete = 0 ∧
      w.shared.game_over = 0 ∧
      pthread_join cancelled_at_start 0 w = none ∧
      main_tournament cancelled_at_start 5 1 = .hangs w) ∧
    (∀ out, main ⟨fun _ => 5, fun _ => .cannot_open⟩ cancelled_at_start ["-n", "5"] 1
      ≠ .exits 0 out) ∧
    ((run 5 cancel_schedule (cinit 5)).orch = .returned ∧
      (run 5 cancel_schedule (cinit 5)).shared.matches_played = 0 ∧
      (run 5 cancel_schedule (cinit 5)).shared.scores = List.replicate MAX_PLAYERS 0 ∧
      ∀ acts k, (run 5 acts (run 5 cancel_schedule (cinit 5))).student k ≠ .done) :=
  ⟨⟨_, rfl, by decide, by decide, by decide, by decide, by decide, by decide, by decide,
    by decide⟩,
   fun out h => ProgramOutcome.noConfusion
    ((show main ⟨fun _ => 5, fun _ => .cannot_open⟩ cancelled_at_start ["-n", "5"] 1
        = .hangs { initial_world 5 with
            stop_reads := 1, output := [Event.registration_interrupted] } from rfl).symm.trans
      h),
   ⟨by decide, by decide, by decide, fun acts k =>
     (early_return_leaves_students_asleep 5 _ ⟨cancel_schedule, rfl⟩ (by decide) (by decide)
        acts k).2.2.2.2⟩⟩

end RPS
